import Mathlib

/-!
Verification of the style-resolution, contrast, and tab-order core of
`content-accessibility-utility-on-aws` against its specification.

The Python sources are shallowly embedded: pure string and list
manipulation becomes computable Lean functions over `List Char`,
Python `float` arithmetic in the WCAG luminance formulas is modelled by
real numbers, bounding-box coordinates by rationals, and the mutable
DOM by an explicit arena of nodes with child lists.  Regular-expression
uses in the source are small and fixed; each one is embedded as a
hand-rolled scanner with the same matching semantics (leftmost match,
greedy runs, backtracking where the pattern needs it).
-/

set_option autoImplicit false

namespace CAU

/-! ### Python string primitives

`str.strip`, `str.lower`, `str.upper` and the `\s` character class,
restricted to the ASCII whitespace characters Python recognises
(`' '`, `\t`, `\n`, `\r`, `\x0b`, `\x0c`); the documents and colors the
tool handles are ASCII, and no claim depends on Unicode whitespace.
All scanners work on `List Char` so that they evaluate inside `decide`. -/

/-- Python whitespace test: the characters matched by `\s` and stripped by
`str.strip()` (ASCII range). -/
def pyIsSpace (c : Char) : Bool :=
  c = ' ' || c = '\t' || c = '\n' || c = '\r' || c = Char.ofNat 11 || c = Char.ofNat 12

/-- Python `str.strip()` on a character list. -/
def pyStripChars (cs : List Char) : List Char :=
  ((cs.dropWhile pyIsSpace).reverse.dropWhile pyIsSpace).reverse

/-- Python `str.strip()`. -/
def pyStrip (s : String) : String := String.mk (pyStripChars s.data)

/-- ASCII `str.lower()` on a character list. -/
def lowerChars (cs : List Char) : List Char := cs.map Char.toLower

/-- ASCII `str.upper()` on a character list. -/
def upperChars (cs : List Char) : List Char := cs.map Char.toUpper

/-- Python `\w` character class: letters, digits and underscore (ASCII). -/
def isWordChar (c : Char) : Bool := c.isAlphanum || c = '_'

/-- The character class `[\w-]` used throughout the selector regexes. -/
def isWordDash (c : Char) : Bool := isWordChar c || c = '-'

/-- Value of a decimal digit run (the regex groups `(\d+)` convert with `int`). -/
def digitsToNat (cs : List Char) : ℕ :=
  cs.foldl (fun a c => a * 10 + (c.toNat - '0'.toNat)) 0

/-- Expect one fixed character, returning the rest of the input. -/
def expectChar (c : Char) : List Char → Option (List Char)
  | x :: rest => if x = c then some rest else none
  | [] => none

/-- Expect a nonempty run of decimal digits (`\d+`), greedy. -/
def expectDigits (cs : List Char) : Option (ℕ × List Char) :=
  let run := cs.takeWhile Char.isDigit
  if run.isEmpty then none else some (digitsToNat run, cs.drop run.length)

/-! ### Color model: `StyleResolver._normalize_color` -/

/-- Hex digit for uppercase rendering. -/
def hexDigitChar (n : ℕ) : Char :=
  if n < 10 then Char.ofNat ('0'.toNat + n) else Char.ofNat ('A'.toNat + (n - 10))

/-- Fuel-driven core of uppercase hexadecimal rendering (the fuel is an
upper bound on the number of digits, so it never runs out). -/
def toHexCharsAux : ℕ → ℕ → List Char → List Char
  | 0, _, acc => acc
  | fuel + 1, n, acc =>
      if n < 16 then hexDigitChar n :: acc
      else toHexCharsAux fuel (n / 16) (hexDigitChar (n % 16) :: acc)

/-- Uppercase hexadecimal digits of `n`, most significant first. -/
def toHexChars (n : ℕ) : List Char := toHexCharsAux (n + 1) n []

/-- Python `f"{n:02X}"`: uppercase hex, left-padded with zeros to width two. -/
def hex2Chars (n : ℕ) : List Char :=
  let ds := toHexChars n
  List.replicate (2 - ds.length) '0' ++ ds

/-- After the literal characters `rgb`, the regex fragment `a?\(`:
an optional `a` followed by an opening parenthesis. -/
def rgbOpenAfter : List Char → Option (List Char)
  | '(' :: rest => some rest
  | 'a' :: '(' :: rest => some rest
  | _ => none

/-- The anchored regex `rgba?\(\s*(\d+)\s*,\s*(\d+)\s*,\s*(\d+)` from
`StyleResolver._normalize_color` (`re.match`; no closing parenthesis is
required), returning the three integer groups. -/
def rgbMatchPrefix (cs : List Char) : Option (ℕ × ℕ × ℕ) := do
  let t0 ← expectChar 'r' cs
  let t1 ← expectChar 'g' t0
  let t2 ← expectChar 'b' t1
  let t3 ← rgbOpenAfter t2
  let (r, t4) ← expectDigits (t3.dropWhile pyIsSpace)
  let t5 ← expectChar ',' (t4.dropWhile pyIsSpace)
  let (g, t6) ← expectDigits (t5.dropWhile pyIsSpace)
  let t7 ← expectChar ',' (t6.dropWhile pyIsSpace)
  let (b, _) ← expectDigits (t7.dropWhile pyIsSpace)
  some (r, g, b)

/-- The `named_colors` table of `StyleResolver._normalize_color`. -/
def named_colors : List (String × String) :=
  [("black", "#000000"), ("white", "#FFFFFF"), ("red", "#FF0000"),
   ("green", "#008000"), ("blue", "#0000FF"), ("yellow", "#FFFF00"),
   ("gray", "#808080"), ("grey", "#808080"), ("transparent", "transparent")]

/-- Lookup in the named-color table. -/
def lookupNamed (s : List Char) : Option String :=
  (named_colors.find? (fun p => p.1.data == s)).map Prod.snd

/-- `StyleResolver._normalize_color`: strip and lowercase, then
3-digit hex expansion, 6-digit hex uppercasing, `rgb()/rgba()` prefix
match, the named-color table, and finally the black fallback
(`return '#000000'` with the comment "If we can't parse it, return black
as fallback").  Hex inputs of other lengths fall through to the later
branches, exactly as in the source. -/
def normalize_color_chars (color : List Char) : String :=
  let hexCase : Option String :=
    match color with
    | '#' :: hs =>
      match hs with
      | [r, g, b] => some (String.mk (upperChars ['#', r, r, g, g, b, b]))
      | _ => if hs.length = 6 then some (String.mk (upperChars ('#' :: hs))) else none
    | _ => none
  match hexCase with
  | some v => v
  | none =>
    match rgbMatchPrefix color with
    | some (r, g, b) =>
        String.mk ('#' :: (hex2Chars r ++ hex2Chars g ++ hex2Chars b))
    | none =>
      match lookupNamed color with
      | some v => v
      | none => "#000000"

/-- `StyleResolver._normalize_color` applied to a raw value: the
source's first line is `color = color.strip().lower()`. -/
def normalize_color (raw : String) : String :=
  normalize_color_chars (lowerChars (pyStripChars raw.data))

/-- The syntaxes `_normalize_color` actually recognises: `#` followed by
exactly 3 or 6 characters, an `rgb()/rgba()` prefix with three integer
components, or an entry of the named-color table. -/
def supported_color_chars (color : List Char) : Bool :=
  (match color with
   | '#' :: hs => hs.length == 3 || hs.length == 6
   | _ => false)
    || (rgbMatchPrefix color).isSome
    || (lookupNamed color).isSome

/-- `supported_color_chars` after the source's strip-and-lowercase. -/
def supported_color_syntax (raw : String) : Bool :=
  supported_color_chars (lowerChars (pyStripChars raw.data))

/-! ### `StyleResolver._calculate_specificity`

Each `re.findall` in the source is embedded as a left-to-right scanner
with Python's non-overlapping match semantics.  All scanners carry a
fuel argument (any fuel above the input length is enough, since every
step consumes at least one character) so that they reduce structurally. -/

/-- Count matches of `X[\w-]+` for a fixed lead character `X`
(`#[\w-]+` for ids, `\.[\w-]+` for classes, `\[[\w-]+` for attributes). -/
def scanTokenAux (lead : Char) : ℕ → List Char → ℕ
  | 0, _ => 0
  | _, [] => 0
  | fuel + 1, c :: rest =>
      if c = lead then
        let run := rest.takeWhile isWordDash
        if run.isEmpty then scanTokenAux lead fuel rest
        else scanTokenAux lead fuel (rest.drop run.length) + 1
      else scanTokenAux lead fuel rest

/-- Count matches of `:[\w-]+(?!\()`.  When the greedy run is followed by
`(`, Python backtracks one character, so runs of length at least two
still match (one character shorter); a run of length one fails. -/
def scanPseudoAux : ℕ → List Char → ℕ
  | 0, _ => 0
  | _, [] => 0
  | fuel + 1, c :: rest =>
      if c = ':' then
        let run := rest.takeWhile isWordDash
        if run.isEmpty then scanPseudoAux fuel rest
        else if (rest.drop run.length).head? = some '(' then
          if 2 ≤ run.length then scanPseudoAux fuel (rest.drop (run.length - 1)) + 1
          else scanPseudoAux fuel rest
        else scanPseudoAux fuel (rest.drop run.length) + 1
      else scanPseudoAux fuel rest

/-- `re.sub(r'[.#][\w-]+', '', selector)`: delete every class/id token. -/
def stripClassIdAux : ℕ → List Char → List Char
  | 0, cs => cs
  | _, [] => []
  | fuel + 1, c :: rest =>
      if c = '.' || c = '#' then
        let run := rest.takeWhile isWordDash
        if run.isEmpty then c :: stripClassIdAux fuel rest
        else stripClassIdAux fuel (rest.drop run.length)
      else c :: stripClassIdAux fuel rest

/-- Count matches of `\b[a-z][\w-]*` (with `re.IGNORECASE`).  The flag
tracks whether the previous character was a `\w` character, which
decides the word boundary. -/
def scanElemAux : ℕ → Bool → List Char → ℕ
  | 0, _, _ => 0
  | _, _, [] => 0
  | fuel + 1, prevWord, c :: rest =>
      if c.isAlpha && !prevWord then
        let run := rest.takeWhile isWordDash
        scanElemAux fuel (isWordChar (run.getLastD c)) (rest.drop run.length) + 1
      else scanElemAux fuel (isWordChar c) rest

/-- Count matches of `::[\w-]+`. -/
def scanDColonAux : ℕ → List Char → ℕ
  | 0, _ => 0
  | _, [] => 0
  | fuel + 1, c :: rest =>
      if c = ':' && rest.head? = some ':' then
        let run := (rest.drop 1).takeWhile isWordDash
        if run.isEmpty then scanDColonAux fuel rest
        else scanDColonAux fuel ((rest.drop 1).drop run.length) + 1
      else scanDColonAux fuel rest

/-- `StyleResolver._calculate_specificity`: ids; classes + attributes +
pseudo-classes; elements (after deleting class/id tokens) +
pseudo-elements.  Returned as the tuple `(id, class, element)` compared
lexicographically, as Python compares tuples. -/
def calculate_specificity (selector : String) : ℕ × ℕ × ℕ :=
  let cs := selector.data
  let fuel := cs.length + 1
  let idCount := scanTokenAux '#' fuel cs
  let classCount := scanTokenAux '.' fuel cs + scanTokenAux '[' fuel cs + scanPseudoAux fuel cs
  let temp := stripClassIdAux fuel cs
  let elementCount := scanElemAux (temp.length + 1) false temp + scanDColonAux fuel cs
  (idCount, classCount, elementCount)

/-! ### `StyleResolver._element_matches_selector` and rule parsing -/

/-- Element data visible to the style resolver: tag name, `id`, the
multi-valued `class` attribute, and the raw `style` attribute.  `uid`
stands for the identity of the underlying DOM object and is never read
by the embedded logic. -/
structure EData where
  name : String
  id : Option String := none
  classes : List String := []
  style : Option String := none
  uid : ℕ := 0
deriving Repr, DecidableEq

/-- Shape test for `^[a-z][\w-]*$` with `re.IGNORECASE`. -/
def fullElemShape : List Char → Bool
  | c :: rest => c.isAlpha && rest.all isWordDash
  | [] => false

/-- Decompose against `^([a-z][\w-]*)\.([a-z][\w-]*)$`: since `[\w-]`
excludes the dot, this is exactly one dot with both sides of element
shape. -/
def splitElemClass (cs : List Char) : Option (List Char × List Char) :=
  match List.splitOn '.' cs with
  | [a, b] => if fullElemShape a && fullElemShape b then some (a, b) else none
  | _ => none

/-- `StyleResolver._element_matches_selector` for the natively supported
selector shapes.  The source's final fallback delegates arbitrary
selectors to `soup.select` (the external soupsieve library); it is
modelled as no-match, and no claim exercises it (all selectors in the
claims are native shapes). -/
def element_matches_selector (e : EData) (selector : String) : Bool :=
  let sel := pyStripChars selector.data
  if fullElemShape sel then e.name.data == sel
  else
    match sel with
    | '#' :: rest => (e.id.getD "").data == rest
    | '.' :: rest => e.classes.any (fun c => c.data == rest)
    | _ =>
      match splitElemClass sel with
      | some (en, cn) => e.name.data == en && e.classes.any (fun c => c.data == cn)
      | none => false

/-- Property dictionaries, with CPython `dict` semantics: assignment
overwrites in place, first-found lookup is therefore the latest value. -/
abbrev Props := List (String × String)

/-- Dict assignment `d[k] = v`. -/
def propsSet (ps : Props) (k v : String) : Props :=
  if ps.any (fun p => p.1 == k) then ps.map (fun p => if p.1 == k then (k, v) else p)
  else ps ++ [(k, v)]

/-- Dict lookup `d.get(k)`. -/
def propsGet (ps : Props) (k : String) : Option String :=
  (ps.find? (fun p => p.1 == k)).map Prod.snd

/-- Dict membership `k in d`. -/
def propsHas (ps : Props) (k : String) : Bool :=
  ps.any (fun p => p.1 == k)

/-- `StyleResolver._parse_properties`: split on `;`, keep declarations
containing `:`, split each at the first `:`, lowercase and strip the
property, strip the value. -/
def parse_properties (text : String) : Props :=
  (List.splitOn ';' text.data).foldl
    (fun props decl0 =>
      let decl := pyStripChars decl0
      if decl.contains ':' then
        let prop := String.mk (lowerChars (pyStripChars (decl.takeWhile (fun x => x != ':'))))
        let value := String.mk (pyStripChars ((decl.dropWhile (fun x => x != ':')).drop 1))
        propsSet props prop value
      else props)
    []

/-- A parsed style rule, as stored in `StyleResolver.parsed_rules`. -/
structure StyleRule where
  selector : String
  properties : Props
  specificity : ℕ × ℕ × ℕ
deriving Repr, DecidableEq

/-- Non-greedy comment body: skip to the first `*/`. -/
def findCloseAux : ℕ → List Char → Option (List Char)
  | 0, _ => none
  | _, [] => none
  | fuel + 1, c :: rest =>
      if c = '*' && rest.head? = some '/' then some (rest.drop 1)
      else findCloseAux fuel rest

/-- `re.sub(r'/\*.*?\*/', '', css, flags=re.DOTALL)`: delete each
comment up to its nearest `*/`; an unclosed `/*` is left in place. -/
def stripCommentsAux : ℕ → List Char → List Char
  | 0, cs => cs
  | _, [] => []
  | fuel + 1, c :: rest =>
      if c = '/' && rest.head? = some '*' then
        match findCloseAux (rest.length + 1) (rest.drop 1) with
        | some rest2 => stripCommentsAux fuel rest2
        | none => c :: stripCommentsAux fuel rest
      else c :: stripCommentsAux fuel rest

/-- Successive matches of `([^{]+)\{([^}]+)\}` (`re.finditer`): selector
text before a brace and a nonempty body; empty selectors or bodies make
the candidate position fail, and scanning resumes past the opening
brace, exactly as the regex engine does. -/
def cssRulesAux : ℕ → List Char → List (List Char × List Char)
  | 0, _ => []
  | fuel + 1, cs =>
      let pre := cs.takeWhile (fun c => c != '{')
      match cs.drop pre.length with
      | '{' :: afterBrace =>
          let body := afterBrace.takeWhile (fun c => c != '}')
          match afterBrace.drop body.length with
          | '}' :: rest2 =>
              if body.isEmpty || pre.isEmpty then cssRulesAux fuel afterBrace
              else (pre, body) :: cssRulesAux fuel rest2
          | _ => []
      | _ => []

/-- `StyleResolver._parse_css_text`: strip comments, extract
`selector { body }` blocks, parse each body, and append one rule per
block with nonempty properties, in source order. -/
def parse_css_text (css : String) : List StyleRule :=
  let cleaned := stripCommentsAux (css.data.length + 1) css.data
  (cssRulesAux (cleaned.length + 1) cleaned).foldl
    (fun acc selBody =>
      let selector := String.mk (pyStripChars selBody.1)
      let properties := parse_properties (String.mk (pyStripChars selBody.2))
      if properties.isEmpty then acc
      else
        acc ++ [{ selector := selector, properties := properties,
                  specificity := calculate_specificity selector }])
    []

/-! ### `StyleResolver.get_computed_style` and the color accessors

An element in context is its own data consed onto the data of its
ancestors, nearest first; the chain ends where BeautifulSoup's parent
walk reaches the `[document]` node. -/

/-- Lexicographic comparison of Python specificity tuples. -/
def specLtBool (a b : ℕ × ℕ × ℕ) : Bool :=
  decide (a.1 < b.1) ||
    (a.1 == b.1 && (decide (a.2.1 < b.2.1) ||
      (a.2.1 == b.2.1 && decide (a.2.2 < b.2.2))))

/-- One step of the stable descending sort: `r` goes after every element
of strictly greater specificity and before everything else. -/
def insertRuleDesc (r : StyleRule) : List StyleRule → List StyleRule
  | [] => [r]
  | s :: rest =>
      if specLtBool r.specificity s.specificity then s :: insertRuleDesc r rest
      else r :: s :: rest

/-- Python `list.sort(key=specificity, reverse=True)`: a stable
descending sort, so among equal specificities the earlier-parsed rule
stays first. -/
def sortRulesDesc (rs : List StyleRule) : List StyleRule :=
  rs.foldr insertRuleDesc []

/-- Characterization used by the theorems below: the first rule of the
list attaining the (lexicographically) maximal specificity - which is
what `matching_rules.sort(key=..., reverse=True)` followed by
`matching_rules[0]` selects, Python's sort being stable. -/
def firstMaxRule : List StyleRule → Option StyleRule
  | [] => none
  | r :: rs =>
      match firstMaxRule rs with
      | none => some r
      | some m => if specLtBool r.specificity m.specificity then some m else some r

/-- Python truthiness of `Optional[str]`: `None` and `''` are falsy. -/
def truthyOpt (o : Option String) : Bool := o.getD "" != ""

/-- `StyleResolver._get_inline_style_property`. -/
def get_inline_style_property (e : EData) (prop : String) : Option String :=
  let styleAttr := e.style.getD ""
  if styleAttr == "" then none
  else propsGet (parse_properties styleAttr) prop

/-- `StyleResolver._get_default_value`. -/
def get_default_value (prop : String) : Option String :=
  if prop == "color" then some "#000000"
  else if prop == "background-color" then some "transparent"
  else if prop == "font-size" then some "16px"
  else if prop == "font-weight" then some "normal"
  else none

/-- `StyleResolver.get_computed_style`: inline style if truthy, else the
top rule of the stable descending specificity sort among matching rules
declaring the property, else inheritance for `color`, else defaults. -/
def get_computed_style (rules : List StyleRule) : List EData → String → Option String
  | [], _ => none
  | e :: parents, prop0 =>
    let prop := String.mk (lowerChars prop0.data)
    let inlineVal := get_inline_style_property e prop
    if truthyOpt inlineVal then inlineVal
    else
      let matching := rules.filter
        (fun r => element_matches_selector e r.selector && propsHas r.properties prop)
      match (sortRulesDesc matching).head? with
      | some top => propsGet top.properties prop
      | none =>
          if prop == "color" && !parents.isEmpty then
            get_computed_style rules parents prop
          else get_default_value prop

/-- `StyleResolver.get_text_color`: computed `color`, normalized, with
black as the fallback for a falsy computed value. -/
def get_text_color (rules : List StyleRule) (chain : List EData) : String :=
  match get_computed_style rules chain "color" with
  | some c => if c == "" then "#000000" else normalize_color c
  | none => "#000000"

/-- `StyleResolver.get_background_color`: walk ancestors for the first
truthy, non-`transparent` computed `background-color`, defaulting to
white at the document root. -/
def get_background_color (rules : List StyleRule) : List EData → String
  | [] => "#FFFFFF"
  | e :: parents =>
      match get_computed_style rules (e :: parents) "background-color" with
      | some v =>
          if v != "" && v != "transparent" then normalize_color v
          else get_background_color rules parents
      | none => get_background_color rules parents

/-- `StyleResolver.get_font_size`. -/
def get_font_size (rules : List StyleRule) (chain : List EData) : Option String :=
  get_computed_style rules chain "font-size"

/-- `StyleResolver.get_font_weight`: `b`/`strong` tags are bold,
otherwise the computed `font-weight`. -/
def get_font_weight (rules : List StyleRule) (chain : List EData) : Option String :=
  match chain with
  | [] => none
  | e :: _ =>
      if e.name == "b" || e.name == "strong" then some "bold"
      else get_computed_style rules chain "font-weight"

/-! ### WCAG numeric model: `ColorContrastCheck`

Python `float` arithmetic is modelled by the reals; the gamma exponent
`** 2.4` becomes a real power, so these definitions are noncomputable.
The claims evaluated at concrete colors only ever need luminances of
channels `0` and `255`, where the power is exactly `1`. -/

/-- Value of one hexadecimal digit.  `int(_, 16)` raises on other
characters; every use in the source is on a normalized `#RRGGBB`
string, so the junk value `0` is never produced. -/
def hexCharVal (c : Char) : ℕ :=
  if c.isDigit then c.toNat - '0'.toNat
  else if decide ('a' ≤ c) && decide (c ≤ 'f') then c.toNat - 'a'.toNat + 10
  else if decide ('A' ≤ c) && decide (c ≤ 'F') then c.toNat - 'A'.toNat + 10
  else 0

/-- `ColorContrastCheck._hex_to_rgb`: `lstrip('#')` then the three
two-digit slices. -/
def hex_to_rgb (s : String) : ℕ × ℕ × ℕ :=
  let hs := s.data.dropWhile (fun c => c == '#')
  let at2 := fun (i : ℕ) => hexCharVal (hs.getD i '0') * 16 + hexCharVal (hs.getD (i + 1) '0')
  (at2 0, at2 2, at2 4)

/-- `ColorContrastCheck._gamma_correct`. -/
noncomputable def gamma_correct (v : ℝ) : ℝ :=
  if v ≤ 0.03928 then v / 12.92 else ((v + 0.055) / 1.055) ^ (2.4 : ℝ)

/-- `ColorContrastCheck._relative_luminance`. -/
noncomputable def relative_luminance (rgb : ℕ × ℕ × ℕ) : ℝ :=
  let r := gamma_correct ((rgb.1 : ℝ) / 255)
  let g := gamma_correct ((rgb.2.1 : ℝ) / 255)
  let b := gamma_correct ((rgb.2.2 : ℝ) / 255)
  0.2126 * r + 0.7152 * g + 0.0722 * b

/-- `ColorContrastCheck._calculate_contrast_ratio`. -/
noncomputable def calculate_contrast_ratio (c1 c2 : String) : ℝ :=
  let l1 := relative_luminance (hex_to_rgb c1)
  let l2 := relative_luminance (hex_to_rgb c2)
  if l1 > l2 then (l1 + 0.05) / (l2 + 0.05) else (l2 + 0.05) / (l1 + 0.05)

/-! ### Document model for `ColorContrastCheck.check`

The parsed document is a forest of element and text nodes (a mutual
inductive rather than a nested one, so that all traversals are
structural and reduce inside `decide`). -/

mutual
/-- A DOM node: an element with attribute data and children, or text. -/
inductive HTree where
  | elem : EData → HForest → HTree
  | text : String → HTree
deriving Repr, DecidableEq

/-- A list of sibling DOM nodes. -/
inductive HForest where
  | nil : HForest
  | cons : HTree → HForest → HForest
deriving Repr, DecidableEq
end

/-- Modelled from the spec: `AccessibilityCheck.get_element_text`
(`audit/base_check.py`) is not under `src/`; the spec's checks operate
on each element's text content, modelled as the concatenation of all
descendant text nodes in document order (BeautifulSoup `get_text()`). -/
def forest_text : HForest → List Char
  | .nil => []
  | .cons (.text s) rest => s.data ++ forest_text rest
  | .cons (.elem _ kids) rest => forest_text kids ++ forest_text rest

/-- BeautifulSoup `Tag.string`: the single text child, recursing through
a single element child, `None` otherwise. -/
def tag_string : HForest → Option String
  | .cons (.text s) .nil => some s
  | .cons (.elem _ kids) .nil => tag_string kids
  | _ => none

/-- An element in document context: its data, its ancestors (nearest
first), and its children. -/
structure FlatElem where
  data : EData
  ancestors : List EData
  kids : HForest
deriving Repr, DecidableEq

/-- Pre-order flattening of a forest, carrying ancestor chains;
`soup.find_all` filters this document-order list. -/
def flattenF (anc : List EData) : HForest → List FlatElem
  | .nil => []
  | .cons (.text _) rest => flattenF anc rest
  | .cons (.elem d kids) rest =>
      ⟨d, anc, kids⟩ :: (flattenF (d :: anc) kids ++ flattenF anc rest)

/-- The truthy `.string` contents of `<style>` tags in document order
(`soup.find_all("style")` followed by the `if style_tag.string:` test). -/
def style_strings : HForest → List String
  | .nil => []
  | .cons (.text _) rest => style_strings rest
  | .cons (.elem d kids) rest =>
      (if d.name == "style" then
        match tag_string kids with
        | some s => if s == "" then [] else [s]
        | none => []
      else []) ++ style_strings kids ++ style_strings rest

/-- `StyleResolver._parse_all_styles` for a document without external
stylesheet paths (none of the claims involve external files): the rules
of every style tag, in document order. -/
def parse_all_styles (doc : HForest) : List StyleRule :=
  (style_strings doc).foldl (fun acc s => acc ++ parse_css_text s) []

/-! ### The fallback color extractors of `ColorContrastCheck`

`_get_text_color` and `_get_background_color` scan the raw inline style
with `re.search(r"color:\s*(#[0-9a-fA-F]{3,6}|rgb\(\s*\d+\s*,\s*\d+\s*,\s*\d+\s*\))", ...)`
(and the `background-color:` variant). -/

/-- The character class `[0-9a-fA-F]`. -/
def pyIsHexDigit (c : Char) : Bool :=
  c.isDigit || (decide ('a' ≤ c) && decide (c ≤ 'f')) || (decide ('A' ≤ c) && decide (c ≤ 'F'))

/-- The alternative `#[0-9a-fA-F]{3,6}` at the current position:
at least three hex digits, greedily up to six. -/
def hexAltAt : List Char → Option (List Char)
  | '#' :: rest =>
      let run := rest.takeWhile pyIsHexDigit
      if 3 ≤ run.length then some ('#' :: run.take 6) else none
  | _ => none

/-- The alternative `rgb\(\s*\d+\s*,\s*\d+\s*,\s*\d+\s*\)` at the
current position, returning the matched slice of the input. -/
def rgbAltAt (cs : List Char) : Option (List Char) := do
  let t0 ← expectChar 'r' cs
  let t1 ← expectChar 'g' t0
  let t2 ← expectChar 'b' t1
  let t3 ← expectChar '(' t2
  let (_, t4) ← expectDigits (t3.dropWhile pyIsSpace)
  let t5 ← expectChar ',' (t4.dropWhile pyIsSpace)
  let (_, t6) ← expectDigits (t5.dropWhile pyIsSpace)
  let t7 ← expectChar ',' (t6.dropWhile pyIsSpace)
  let (_, t8) ← expectDigits (t7.dropWhile pyIsSpace)
  let t9 ← expectChar ')' (t8.dropWhile pyIsSpace)
  some (cs.take (cs.length - t9.length))

/-- The capture group: hex alternative first, then the rgb alternative. -/
def colorValueAt (cs : List Char) : Option (List Char) :=
  match hexAltAt cs with
  | some v => some v
  | none => rgbAltAt cs

/-- Leftmost `re.search` for `key` (the literal `color:` or
`background-color:`) followed by `\s*` and the color alternation. -/
def searchStyleColor (key : List Char) : ℕ → List Char → Option (List Char)
  | 0, _ => none
  | _, [] => none
  | fuel + 1, c :: rest =>
      if key.isPrefixOf (c :: rest) then
        match colorValueAt (((c :: rest).drop key.length).dropWhile pyIsSpace) with
        | some v => some v
        | none => searchStyleColor key fuel rest
      else searchStyleColor key fuel rest

/-- Search an attribute string for `key` + color value. -/
def searchColorValue (key : String) (s : String) : Option (List Char) :=
  searchStyleColor key.data (s.data.length + 1) s.data

/-- The anchored `re.match(r"rgb\(\s*(\d+)\s*,\s*(\d+)\s*,\s*(\d+)\s*\)", _)`
of the check-local `_normalize_color` (closing parenthesis required,
no `rgba`). -/
def rgbFullMatch (cs : List Char) : Option (ℕ × ℕ × ℕ) := do
  let t0 ← expectChar 'r' cs
  let t1 ← expectChar 'g' t0
  let t2 ← expectChar 'b' t1
  let t3 ← expectChar '(' t2
  let (r, t4) ← expectDigits (t3.dropWhile pyIsSpace)
  let t5 ← expectChar ',' (t4.dropWhile pyIsSpace)
  let (g, t6) ← expectDigits (t5.dropWhile pyIsSpace)
  let t7 ← expectChar ',' (t6.dropWhile pyIsSpace)
  let (b, t8) ← expectDigits (t7.dropWhile pyIsSpace)
  let _ ← expectChar ')' (t8.dropWhile pyIsSpace)
  some (r, g, b)

/-- `ColorContrastCheck._normalize_color` (the check-local copy): hex
uppercasing with 3-digit expansion, full `rgb()` match, otherwise the
input returned unchanged. -/
def check_normalize_color (color : String) : String :=
  if color.data.head? = some '#' then
    match color.data with
    | ['#', r, g, b] => String.mk (upperChars ['#', r, r, g, g, b, b])
    | _ => String.mk (upperChars color.data)
  else
    match rgbFullMatch color.data with
    | some (r, g, b) => String.mk ('#' :: (hex2Chars r ++ hex2Chars g ++ hex2Chars b))
    | none => color

/-- `ColorContrastCheck._get_text_color`: inline `color:` match,
defaulting to black. -/
def fallback_text_color (e : EData) : String :=
  if truthyOpt e.style then
    match searchColorValue "color:" (e.style.getD "") with
    | some v => check_normalize_color (String.mk v)
    | none => "#000000"
  else "#000000"

/-- Ancestor walk of `ColorContrastCheck._get_background_color`,
stopping before the `html` element and defaulting to white. -/
def fallback_bg_walk : List EData → String
  | [] => "#FFFFFF"
  | p :: rest =>
      if p.name == "html" then "#FFFFFF"
      else
        match (if truthyOpt p.style then
                 searchColorValue "background-color:" (p.style.getD "")
               else none) with
        | some v => check_normalize_color (String.mk v)
        | none => fallback_bg_walk rest

/-- `ColorContrastCheck._get_background_color`: own inline
`background-color:` match, then the ancestor walk. -/
def fallback_bg_color (e : EData) (anc : List EData) : String :=
  match (if truthyOpt e.style then
           searchColorValue "background-color:" (e.style.getD "")
         else none) with
  | some v => check_normalize_color (String.mk v)
  | none => fallback_bg_walk anc

/-! ### `ColorContrastCheck._is_large_text` and `_is_bold` -/

/-- Python `int(str)`: strip, optional sign, decimal digits (digit
grouping underscores are not modelled; no caller uses them). -/
def pyIntParse (cs : List Char) : Option ℤ :=
  let t := pyStripChars cs
  let sign : ℤ := if t.head? = some '-' then -1 else 1
  let t2 := if t.head? = some '-' || t.head? = some '+' then t.drop 1 else t
  if t2.isEmpty || !t2.all Char.isDigit then none
  else some (sign * digitsToNat t2)

/-- `re.search(r"(\d+\.?\d*)(px|pt|em|rem)?", _)`: first digit run with
an optional fraction, and the optional unit immediately after.  The
numeric group is returned as digits (integer part, fraction digits,
fraction length); `decimalValue` turns it into the `float(...)` value. -/
def fontSizeSearch : ℕ → List Char → Option ((ℕ × ℕ × ℕ) × String)
  | 0, _ => none
  | _, [] => none
  | fuel + 1, c :: rest =>
      if c.isDigit then
        let intRun := (c :: rest).takeWhile Char.isDigit
        let afterInt := (c :: rest).drop intRun.length
        let fracRun :=
          match afterInt with
          | '.' :: r2 => r2.takeWhile Char.isDigit
          | _ => []
        let afterNum :=
          match afterInt with
          | '.' :: r2 => r2.drop fracRun.length
          | _ => afterInt
        let unit : Option String :=
          if ['p', 'x'].isPrefixOf afterNum then some "px"
          else if ['p', 't'].isPrefixOf afterNum then some "pt"
          else if ['e', 'm'].isPrefixOf afterNum then some "em"
          else if ['r', 'e', 'm'].isPrefixOf afterNum then some "rem"
          else none
        some ((digitsToNat intRun, digitsToNat fracRun, fracRun.length), unit.getD "px")
      else fontSizeSearch fuel rest

/-- The rational value of a parsed decimal `i.f` group. -/
def decimalValue (t : ℕ × ℕ × ℕ) : ℚ :=
  (t.1 : ℚ) + (t.2.1 : ℚ) / (10 ^ t.2.2)

/-- `ColorContrastCheck._is_bold`: `b`/`strong`, the literal weights
`bold`/`bolder`, or a numeric weight of at least 700. -/
def is_bold (rules : List StyleRule) (chain : List EData) : Bool :=
  match chain with
  | [] => false
  | e :: _ =>
      if e.name == "b" || e.name == "strong" then true
      else
        match get_font_weight rules chain with
        | some fw =>
            if fw == "" then false
            else if fw == "bold" || fw == "bolder" then true
            else
              match pyIntParse fw.data with
              | some n => decide (700 ≤ n)
              | none => false
        | none => false

/-- `ColorContrastCheck._is_large_text`: `h1`-`h3` always large; else
font size converted toward pixels (`pt` times 1.333, `em`/`rem` times
16), large at 24px, or at 18.67px when bold. -/
def is_large_text (rules : List StyleRule) (chain : List EData) : Bool :=
  match chain with
  | [] => false
  | e :: _ =>
      if e.name == "h1" || e.name == "h2" || e.name == "h3" then true
      else
        match get_font_size rules chain with
        | some fs =>
            if fs == "" then false
            else
              match fontSizeSearch (fs.data.length + 1) fs.data with
              | some su =>
                  let size : ℚ :=
                    if su.2 == "pt" then decimalValue su.1 * 1.333
                    else if su.2 == "em" || su.2 == "rem" then decimalValue su.1 * 16
                    else decimalValue su.1
                  if 24 ≤ size then true
                  else if decide ((18.67 : ℚ) ≤ size) && is_bold rules chain then true
                  else false
              | none => false
        | none => false

/-! ### `ColorContrastCheck.check` -/

/-- An emitted accessibility issue, carrying the data of the element it
was reported for (the `element=` argument of `add_issue`). -/
structure Issue where
  issue_type : String
  wcag : String
  severity : String
  elemData : EData
  elemText : String
deriving Repr, DecidableEq

/-- The fixed tag list scanned by `ColorContrastCheck.check`. -/
def text_element_tags : List String :=
  ["p", "h1", "h2", "h3", "h4", "h5", "h6", "a", "span", "div", "li", "td", "th"]

/-- `soup.find_all([...])` over the thirteen text-bearing tags, in
document order. -/
def find_text_elements (doc : HForest) : List FlatElem :=
  (flattenF [] doc).filter (fun f => text_element_tags.contains f.data.name)

/-- The per-element body of `ColorContrastCheck.check`: skip empty
text, resolve colors with fallbacks, emit the potential issue when the
colors stay undetermined, otherwise compare the contrast ratio against
the AA (and, under AAA configuration, AAA) thresholds. -/
noncomputable def check_element_issues (rules : List StyleRule) (level : String)
    (f : FlatElem) : List Issue :=
  let elemText := String.mk (forest_text f.kids)
  if (pyStripChars (forest_text f.kids)).isEmpty then []
  else
    let chain := f.data :: f.ancestors
    let tc0 := get_text_color rules chain
    let bg0 := get_background_color rules chain
    let tc := if tc0 == "" || tc0 == "transparent" then fallback_text_color f.data else tc0
    let bg := if bg0 == "" || bg0 == "transparent" then fallback_bg_color f.data f.ancestors else bg0
    if tc == "" || bg == "" || tc == "transparent" || bg == "transparent" then
      if truthyOpt f.data.style || !f.data.classes.isEmpty then
        [⟨"potential-color-contrast-issue", "1.4.3", "minor", f.data, elemText⟩]
      else []
    else
      let ratio := calculate_contrast_ratio tc bg
      let isLarge := is_large_text rules chain
      let minAA : ℝ := if isLarge then 3.0 else 4.5
      let aa : List Issue :=
        if ratio < minAA then
          [⟨"insufficient-color-contrast", "1.4.3", "major", f.data, elemText⟩]
        else []
      let aaa : List Issue :=
        if String.mk (upperChars level.data) == "AAA" then
          let minAAA : ℝ := if isLarge then 4.5 else 7.0
          if ratio < minAAA then
            [⟨"insufficient-color-contrast-aaa", "1.4.6", "minor", f.data, elemText⟩]
          else []
        else []
      aa ++ aaa

/-- `ColorContrastCheck.check`: rules from the document's style tags,
then the per-element body over every text element in document order. -/
noncomputable def color_contrast_check (doc : HForest) (level : String) : List Issue :=
  let rules := parse_all_styles doc
  (find_text_elements doc).flatMap (check_element_issues rules level)

/-! ### Concrete fixture for the transparent-color scenario -/

/-- A `<p class="x" style="color:transparent">` element. -/
def c5Elem : EData :=
  { name := "p", classes := ["x"], style := some "color:transparent" }

/-- A document consisting of that single paragraph with text. -/
def c5Doc : HForest := .cons (.elem c5Elem (.cons (.text "hi") .nil)) .nil

/-! ### Tab order: `TabOrderCheck` interactive elements and `dom_index`

The tab-order checks see the document as its flat pre-order list of
elements; each element carries its tag, a generic attribute dictionary,
and a `contentKey` abstracting the element's recursive contents, which
participates in BeautifulSoup's structural `Tag.__eq__` used by the
`element not in interactive_elements` deduplication. -/

/-- An element as seen by the tab-order code. -/
structure TElem where
  tag : String
  attrs : List (String × String)
  contentKey : ℕ := 0
deriving Repr, DecidableEq

/-- `element.get(key)`. -/
def getAttr (e : TElem) (k : String) : Option String :=
  (e.attrs.find? (fun p => p.1 == k)).map Prod.snd

/-- `element.has_attr(key)`. -/
def hasAttr (e : TElem) (k : String) : Bool := (getAttr e k).isSome

/-- The `i`-th entry of `TabOrderCheck.INTERACTIVE_SELECTORS`:
`a[href]`, `button:not([disabled])`,
`input:not([disabled]):not([type='hidden'])`, `select:not([disabled])`,
`textarea:not([disabled])`, `area[href]`,
`[tabindex]:not([tabindex="-1"])`. -/
def matchesInteractiveSelector (i : ℕ) (e : TElem) : Bool :=
  if i = 0 then e.tag == "a" && hasAttr e "href"
  else if i = 1 then e.tag == "button" && !hasAttr e "disabled"
  else if i = 2 then
    e.tag == "input" && !hasAttr e "disabled" && getAttr e "type" != some "hidden"
  else if i = 3 then e.tag == "select" && !hasAttr e "disabled"
  else if i = 4 then e.tag == "textarea" && !hasAttr e "disabled"
  else if i = 5 then e.tag == "area" && hasAttr e "href"
  else if i = 6 then hasAttr e "tabindex" && getAttr e "tabindex" != some "-1"
  else false

/-- `if element not in interactive_elements: interactive_elements.append(element)`. -/
def addUnique (acc : List TElem) (e : TElem) : List TElem :=
  if acc.contains e then acc else acc ++ [e]

/-- `TabOrderCheck._get_interactive_elements`: for each selector in
order, append its document-order matches, skipping elements already
collected.  `doc` is the document's element list in pre-order. -/
def get_interactive_elements (doc : List TElem) : List TElem :=
  (List.range 7).foldl
    (fun acc i => (doc.filter (matchesInteractiveSelector i)).foldl addUnique acc) []

/-- Python `float(str)` on the decimal forms used by bounding-box
attributes: optional sign, digits with an optional fraction.  (The
exotic accepted forms - exponents, `inf`, `nan`, underscores - never
appear in bounding boxes and are not modelled.) -/
def parsePyFloat (s : List Char) : Option ℚ :=
  let t := pyStripChars s
  let sgn : ℚ := if t.head? = some '-' then -1 else 1
  let t1 := if t.head? = some '-' || t.head? = some '+' then t.drop 1 else t
  let ip := t1.takeWhile Char.isDigit
  match t1.drop ip.length with
  | [] => if ip.isEmpty then none else some (sgn * digitsToNat ip)
  | '.' :: fr =>
      let fp := fr.takeWhile Char.isDigit
      if !(fr.drop fp.length).isEmpty then none
      else if ip.isEmpty && fp.isEmpty then none
      else some (sgn * ((digitsToNat ip : ℚ) + (digitsToNat fp : ℚ) / 10 ^ fp.length))
  | _ => none

/-- `TabOrderCheck._extract_bbox_data`: the `data-bda-bbox` attribute as
four comma-separated floats, else the `data-x`/`data-y` attributes with
width and height defaulting to 0; any parse failure falls through
(`ValueError` is caught and passed over). -/
def extract_bbox (e : TElem) : Option (ℚ × ℚ × ℚ × ℚ) :=
  let viaBda : Option (ℚ × ℚ × ℚ × ℚ) :=
    match getAttr e "data-bda-bbox" with
    | some s =>
        match (List.splitOn ',' s.data).map parsePyFloat with
        | [some x, some y, some w, some h] => some (x, y, w, h)
        | _ => none
    | none => none
  match viaBda with
  | some b => some b
  | none =>
      if hasAttr e "data-x" && hasAttr e "data-y" then
        let px := parsePyFloat ((getAttr e "data-x").getD "").data
        let py := parsePyFloat ((getAttr e "data-y").getD "").data
        let pw := match getAttr e "data-width" with
                  | some s => parsePyFloat s.data
                  | none => some 0
        let ph := match getAttr e "data-height" with
                  | some s => parsePyFloat s.data
                  | none => some 0
        match px, py, pw, ph with
        | some x, some y, some w, some h => some (x, y, w, h)
        | _, _, _, _ => none
      else none

/-- One entry of `TabOrderCheck._get_elements_with_position`: element,
its `dom_index`, and the parsed bounding box. -/
structure PosElem where
  elem : TElem
  dom_index : ℕ
  x : ℚ
  y : ℚ
  w : ℚ
  h : ℚ
deriving Repr, DecidableEq

/-- `TabOrderCheck._get_elements_with_position`: enumerate the
interactive list and keep the elements with a bounding box, recording
the enumeration index as `dom_index`. -/
def get_elements_with_position (elems : List TElem) : List PosElem :=
  elems.enum.filterMap
    (fun ie =>
      match extract_bbox ie.2 with
      | some (x, y, w, h) => some ⟨ie.2, ie.1, x, y, w, h⟩
      | none => none)

/-! ### Concrete fixture for the `dom_index` scenario -/

/-- A button with a bounding box, first in document order. -/
def c6Btn : TElem := { tag := "button", attrs := [("data-bda-bbox", "0,0,10,10")] }

/-- A link with a bounding box, second in document order. -/
def c6Lnk : TElem :=
  { tag := "a", attrs := [("href", "#x"), ("data-bda-bbox", "0,20,10,10")], contentKey := 1 }

/-! ### Visual order engine

`_group_into_rows` and `_sort_by_visual_position` appear verbatim in
both `TabOrderCheck` and `TabOrderRemediation`; they are embedded once,
generically in the entry type, with the bounding-box projections passed
in (the Python operates on duck-typed dicts). -/

/-- A row accumulator (`{"y_min": ..., "y_max": ..., "elements": [...]}`). -/
structure RowRec (α : Type) where
  y_min : ℚ
  y_max : ℚ
  elements : List α
deriving Repr, DecidableEq

/-- Attach an element to the first row whose `y_min` is within the
threshold, widening that row; `none` when no row accepts it. -/
def placeInRows {α : Type} (getY getH : α → ℚ) (threshold : ℚ) (e : α) :
    List (RowRec α) → Option (List (RowRec α))
  | [] => none
  | r :: rs =>
      if |getY e - r.y_min| ≤ threshold then
        some ({ y_min := min r.y_min (getY e),
                y_max := max r.y_max (getY e + getH e),
                elements := r.elements ++ [e] } :: rs)
      else (placeInRows getY getH threshold e rs).map (r :: ·)

/-- `_group_into_rows`: one greedy pass, first matching row wins, else a
new row is appended. -/
def group_into_rows {α : Type} (getY getH : α → ℚ) (threshold : ℚ) (l : List α) :
    List (RowRec α) :=
  l.foldl
    (fun rows e =>
      match placeInRows getY getH threshold e rows with
      | some rows2 => rows2
      | none => rows ++ [{ y_min := getY e, y_max := getY e + getH e, elements := [e] }])
    []

/-- One step of Python's stable ascending `list.sort`: the new element
goes after every strictly smaller key and before the rest, so equal
keys keep their original order. -/
def insertAscBy {α : Type} (key : α → ℚ) (x : α) : List α → List α
  | [] => [x]
  | y :: ys => if key y < key x then y :: insertAscBy key x ys else x :: y :: ys

/-- Python `list.sort(key=...)`: stable ascending sort. -/
def pySortAscBy {α : Type} (key : α → ℚ) (l : List α) : List α :=
  l.foldr (insertAscBy key) []

/-- `_sort_by_visual_position`: group into rows (threshold 20), sort
rows ascending by `y_min`, sort each row's elements ascending by `x`,
concatenate. -/
def sort_by_visual_position {α : Type} (getX getY getH : α → ℚ) (l : List α) : List α :=
  if l.isEmpty then []
  else
    let rows := group_into_rows getY getH 20 l
    let rows2 := pySortAscBy (fun r => r.y_min) rows
    (rows2.map (fun r => pySortAscBy getX r.elements)).flatten

/-! ### `TabOrderRemediation._reorder_dom_by_visual_position`

The mutable DOM is an arena: a list of `(node, children)` pairs; a
node's parent is the first arena entry whose child list contains it.
The positioned interactive entries are taken as input (their extraction
is the same bounding-box parse as above), so the reordering theorems
hold for every possible entry list. -/

/-- The DOM arena. -/
abbrev Dom := List (ℕ × List ℕ)

/-- The child list of `p` (first arena entry named `p`). -/
def childrenOf (dom : Dom) (p : ℕ) : List ℕ :=
  ((dom.find? (fun q => q.1 == p)).map Prod.snd).getD []

/-- `element.parent`: the first arena entry containing the node. -/
def parentOf (dom : Dom) (n : ℕ) : Option ℕ :=
  (dom.find? (fun q => q.2.contains n)).map Prod.fst

/-- Replace the child list of the first arena entry named `p`. -/
def updateChildren : Dom → ℕ → List ℕ → Dom
  | [], _, _ => []
  | q :: rest, p, cs =>
      if q.1 == p then (p, cs) :: rest else q :: updateChildren rest p cs

/-- Python `list.insert`: clamps the position to the list length. -/
def pyInsertAt {α : Type} (l : List α) (i : ℕ) (x : α) : List α :=
  l.take i ++ x :: l.drop i

/-- A positioned interactive element on the remediation side. -/
structure RPosElem where
  node : ℕ
  x : ℚ
  y : ℚ
  w : ℚ
  h : ℚ
deriving Repr, DecidableEq

/-- `TabOrderRemediation._group_by_common_parent`: an insertion-ordered
dictionary from each element's parent to its elements (downstream code
reads only the element references, modelled as node ids). -/
def group_by_common_parent (dom : Dom) (es : List RPosElem) : List (Option ℕ × List ℕ) :=
  es.foldl
    (fun acc e =>
      let p := parentOf dom e.node
      if acc.any (fun g => g.1 == p) then
        acc.map (fun g => if g.1 == p then (g.1, g.2 ++ [e.node]) else g)
      else acc ++ [(p, [e.node])])
    []

/-- `TabOrderRemediation._reorder_siblings`: skip short or
mixed-parent groups; otherwise record the first element's position,
extract every element, and reinsert them there in the given order.  A
`None` parent or a missing first child would fault in the source and
cannot arise for elements taken from the document; both fall back to
the unchanged arena. -/
def reorder_siblings (dom : Dom) (p : Option ℕ) (es : List ℕ) : Dom :=
  if es.length < 2 then dom
  else if !(es.all (fun e => parentOf dom e == p)) then dom
  else
    match p, es with
    | some pid, e0 :: _ =>
        let children := childrenOf dom pid
        match children.findIdx? (fun c => c == e0) with
        | some pos =>
            let extracted := es.foldl (fun cs e => cs.erase e) children
            let newChildren :=
              es.enum.foldl (fun cs ie => pyInsertAt cs (pos + ie.1) ie.2) extracted
            updateChildren dom pid newChildren
        | none => dom
    | _, _ => dom

/-- `TabOrderRemediation._reorder_dom_by_visual_position`: nothing
happens without a `tab-order-mismatch` issue or with fewer than two
positioned elements; otherwise sort visually, group by parent, and
reorder every group of more than one element. -/
def reorder_dom_by_visual_position (dom : Dom) (hasMismatchIssue : Bool)
    (entries : List RPosElem) : Dom :=
  if !hasMismatchIssue then dom
  else if entries.length < 2 then dom
  else
    let visual := sort_by_visual_position (fun e => e.x) (fun e => e.y) (fun e => e.h) entries
    let groups := group_by_common_parent dom visual
    groups.foldl (fun d g => if 1 < g.2.length then reorder_siblings d g.1 g.2 else d) dom

/-- Visual-order fixture: element at (y=0, x=50). -/
def c8E1 : RPosElem := { node := 1, x := 50, y := 0, w := 10, h := 10 }

/-- Visual-order fixture: element at (y=0, x=10). -/
def c8E2 : RPosElem := { node := 2, x := 10, y := 0, w := 10, h := 10 }

/-- Visual-order fixture: element at (y=100, x=0). -/
def c8E3 : RPosElem := { node := 3, x := 0, y := 100, w := 10, h := 10 }

/-! ## Theorems

First the generic lemmas about specificity comparison and the stable
descending sort, shared by the cascade claims; then one theorem (plus
witness or counterexample) per claim. -/

theorem specLtBool_irrefl (a : ℕ × ℕ × ℕ) : specLtBool a a = false := by
  obtain ⟨a1, a2, a3⟩ := a
  simp [specLtBool]

theorem specLtBool_asymm {a b : ℕ × ℕ × ℕ} (h : specLtBool a b = true) :
    specLtBool b a = false := by
  obtain ⟨a1, a2, a3⟩ := a
  obtain ⟨b1, b2, b3⟩ := b
  simp [specLtBool] at h ⊢
  omega

theorem specLtBool_false_trans {a b c : ℕ × ℕ × ℕ} (h1 : specLtBool a b = false)
    (h2 : specLtBool b c = false) : specLtBool a c = false := by
  obtain ⟨a1, a2, a3⟩ := a
  obtain ⟨b1, b2, b3⟩ := b
  obtain ⟨c1, c2, c3⟩ := c
  simp [specLtBool] at h1 h2 ⊢
  omega

theorem head_insertRuleDesc (r : StyleRule) (l : List StyleRule) :
    (insertRuleDesc r l).head? =
      some (match l with
            | [] => r
            | s :: _ => if specLtBool r.specificity s.specificity then s else r) := by
  cases l with
  | nil => rfl
  | cons s t =>
    by_cases hh : specLtBool r.specificity s.specificity = true <;>
      simp [insertRuleDesc, hh]

theorem sortRulesDesc_head (l : List StyleRule) :
    (sortRulesDesc l).head? = firstMaxRule l := by
  induction l with
  | nil => rfl
  | cons r rs ih =>
    show (insertRuleDesc r (sortRulesDesc rs)).head? = _
    rw [head_insertRuleDesc]
    cases hs : sortRulesDesc rs with
    | nil =>
      rw [hs] at ih
      simp only [List.head?] at ih
      show some r = firstMaxRule (r :: rs)
      unfold firstMaxRule
      rw [← ih]
    | cons s t =>
      rw [hs] at ih
      simp only [List.head?] at ih
      show some (if specLtBool r.specificity s.specificity then s else r)
          = firstMaxRule (r :: rs)
      unfold firstMaxRule
      rw [← ih]
      split <;> simp_all

theorem firstMaxRule_eq_none_iff (l : List StyleRule) :
    firstMaxRule l = none ↔ l = [] := by
  cases l with
  | nil => simp [firstMaxRule]
  | cons r rs =>
    simp only [firstMaxRule]
    cases hm : firstMaxRule rs <;> simp
    split <;> simp

theorem firstMaxRule_mem {l : List StyleRule} {m : StyleRule}
    (h : firstMaxRule l = some m) : m ∈ l := by
  induction l generalizing m with
  | nil => simp [firstMaxRule] at h
  | cons r rs ih =>
    simp only [firstMaxRule] at h
    cases hm : firstMaxRule rs with
    | none =>
      rw [hm] at h
      dsimp only at h
      obtain rfl := Option.some.inj h
      exact List.mem_cons_self _ _
    | some mp =>
      rw [hm] at h
      dsimp only at h
      by_cases hlt : specLtBool r.specificity mp.specificity = true
      · rw [if_pos hlt] at h
        obtain rfl := Option.some.inj h
        exact List.mem_cons_of_mem _ (ih hm)
      · rw [if_neg hlt] at h
        obtain rfl := Option.some.inj h
        exact List.mem_cons_self _ _

theorem firstMaxRule_max {l : List StyleRule} {m : StyleRule}
    (h : firstMaxRule l = some m) :
    ∀ r ∈ l, specLtBool m.specificity r.specificity = false := by
  induction l generalizing m with
  | nil => simp [firstMaxRule] at h
  | cons r rs ih =>
    simp only [firstMaxRule] at h
    intro x hx
    cases hm : firstMaxRule rs with
    | none =>
      rw [hm] at h
      dsimp only at h
      obtain rfl := Option.some.inj h
      rw [firstMaxRule_eq_none_iff] at hm
      subst hm
      rcases List.mem_cons.mp hx with hx | hx
      · subst hx; exact specLtBool_irrefl _
      · simp at hx
    | some mp =>
      rw [hm] at h
      dsimp only at h
      by_cases hlt : specLtBool r.specificity mp.specificity = true
      · rw [if_pos hlt] at h
        obtain rfl := Option.some.inj h
        rcases List.mem_cons.mp hx with hx | hx
        · subst hx; exact specLtBool_asymm hlt
        · exact ih hm x hx
      · rw [if_neg hlt] at h
        obtain rfl := Option.some.inj h
        rcases List.mem_cons.mp hx with hx | hx
        · subst hx; exact specLtBool_irrefl _
        · have hf : specLtBool r.specificity mp.specificity = false := by
            simpa using hlt
          exact specLtBool_false_trans hf (ih hm x hx)

theorem firstMaxRule_all_eq {l : List StyleRule} {s0 : ℕ × ℕ × ℕ}
    (h : l.all (fun r => r.specificity == s0) = true) :
    firstMaxRule l = l.head? := by
  induction l with
  | nil => rfl
  | cons r rs ih =>
    simp only [List.all_cons, Bool.and_eq_true, beq_iff_eq] at h
    obtain ⟨h1, h2⟩ := h
    simp only [firstMaxRule]
    cases hm : firstMaxRule rs with
    | none => rfl
    | some mp =>
      have hmem := firstMaxRule_mem hm
      have hms : mp.specificity = s0 := by
        have := List.all_eq_true.mp h2 mp hmem
        simpa using this
      have hlt : specLtBool r.specificity mp.specificity = false := by
        rw [h1, hms]; exact specLtBool_irrefl _
      simp [hlt]

/-- Core of the C1 amendment, over the stripped and lowercased value:
when none of the recognised syntaxes applies, every branch of
`_normalize_color` falls through to the black fallback. -/
theorem normalize_color_chars_unsupported (cs : List Char)
    (h : supported_color_chars cs = false) :
    normalize_color_chars cs = "#000000" := by
  unfold supported_color_chars at h
  unfold normalize_color_chars
  simp only [Bool.or_eq_false_iff] at h
  obtain ⟨⟨hshape, hrgb⟩, hnamed⟩ := h
  have hhex : (match cs with
      | '#' :: hs =>
        (match hs with
          | [r, g, b] => some (String.mk (upperChars ['#', r, r, g, g, b, b]))
          | _ => if hs.length = 6 then some (String.mk (upperChars ('#' :: hs))) else none)
      | _ => (none : Option String)) = none := by
    rcases hcs : cs with _ | ⟨c, hs⟩
    · rfl
    · rw [hcs] at hshape
      by_cases hcc : c = '#'
      · subst hcc
        rcases hs with _ | ⟨a, _ | ⟨b, _ | ⟨d, _ | ⟨e, t⟩⟩⟩⟩ <;> simp_all
      · split
        next heq =>
          exact absurd (List.cons.inj heq).1 hcc
        next => rfl
  simp only [hhex]
  cases hr : rgbMatchPrefix cs with
  | some v => rw [hr] at hrgb; simp at hrgb
  | none =>
    cases hn : lookupNamed cs with
    | some v => rw [hn] at hnamed; simp at hnamed
    | none => rfl

/-- Claim C1 counterexample: `"notacolor"` matches none of the supported
syntaxes, yet `_normalize_color` returns the concrete color black
`'#000000'` - not null/"undetermined" - contradicting the claim that no
unparseable input maps to black. -/
theorem C1_counterexample :
    supported_color_syntax "notacolor" = false ∧
      normalize_color "notacolor" = "#000000" := by
  exact ⟨by decide, by decide⟩

/-- Claim C1 (amended): for every input color string matching none of
the supported syntaxes (3- or 6-digit hex, `rgb()/rgba()` prefix, the
named-color table), `StyleResolver._normalize_color` returns the black
fallback `'#000000'`; it never returns null (its return type is a
string). -/
theorem C1_amended (raw : String) (h : supported_color_syntax raw = false) :
    normalize_color raw = "#000000" :=
  normalize_color_chars_unsupported _ h

/-- Witness for the amended C1 at the concrete input `"notacolor"`. -/
theorem C1_amended_witness :
    supported_color_syntax "notacolor" = false ∧
      normalize_color "notacolor" = "#000000" :=
  ⟨by decide, C1_amended "notacolor" (by decide)⟩

/-- Claim C4 counterexample: `hsl(0,100%,50%)` does not normalize to
`'#FF0000'`; hsl syntax is unsupported and the input falls through to
the black fallback. -/
theorem C4_counterexample :
    normalize_color "hsl(0,100%,50%)" = "#000000" ∧
      normalize_color "hsl(0,100%,50%)" ≠ "#FF0000" := by
  exact ⟨by decide, by decide⟩

/-- Claim C4 (amended): `_normalize_color` canonicalises the syntaxes it
supports - `#abc` to `'#AABBCC'` and `rgb(255,0,0)` to `'#FF0000'` - but
`hsl()/hsla()` is not among them: `hsl(0,100%,50%)` takes the black
fallback `'#000000'`. -/
theorem C4_amended :
    normalize_color "#abc" = "#AABBCC" ∧
      normalize_color "rgb(255,0,0)" = "#FF0000" ∧
      normalize_color "hsl(0,100%,50%)" = "#000000" := by
  exact ⟨by decide, by decide, by decide⟩

/-! ### Cascade precedence (C2, C3) -/

/-- Precedence step 1: a truthy inline declaration wins outright. -/
theorem get_computed_style_inline (rules : List StyleRule) (e : EData)
    (parents : List EData) (prop0 : String) (v : String)
    (hv : get_inline_style_property e (String.mk (lowerChars prop0.data)) = some v)
    (hne : v ≠ "") :
    get_computed_style rules (e :: parents) prop0 = some v := by
  simp only [get_computed_style]
  rw [hv, if_pos]
  simp [truthyOpt, hne]

/-- Precedence step 2: without a truthy inline value, the result comes
from a matching rule of maximal specificity. -/
theorem get_computed_style_rule (rules : List StyleRule) (e : EData)
    (parents : List EData) (prop0 : String)
    (h1 : truthyOpt (get_inline_style_property e (String.mk (lowerChars prop0.data))) = false)
    (hne : (rules.filter (fun r =>
        element_matches_selector e r.selector &&
          propsHas r.properties (String.mk (lowerChars prop0.data)))) ≠ []) :
    ∃ m ∈ (rules.filter (fun r =>
        element_matches_selector e r.selector &&
          propsHas r.properties (String.mk (lowerChars prop0.data)))),
      (∀ r ∈ (rules.filter (fun r =>
          element_matches_selector e r.selector &&
            propsHas r.properties (String.mk (lowerChars prop0.data)))),
        specLtBool m.specificity r.specificity = false) ∧
      get_computed_style rules (e :: parents) prop0
        = propsGet m.properties (String.mk (lowerChars prop0.data)) := by
  cases hm : firstMaxRule (rules.filter (fun r =>
      element_matches_selector e r.selector &&
        propsHas r.properties (String.mk (lowerChars prop0.data)))) with
  | none => rw [firstMaxRule_eq_none_iff] at hm; exact absurd hm hne
  | some m =>
    refine ⟨m, firstMaxRule_mem hm, firstMaxRule_max hm, ?_⟩
    simp only [get_computed_style]
    rw [if_neg (by simp [h1])]
    rw [sortRulesDesc_head, hm]

/-- Precedence step 3: no inline value and no matching rule makes the
inheritable property `color` recurse to the parent chain. -/
theorem get_computed_style_inherit (rules : List StyleRule) (e : EData)
    (parents : List EData) (prop0 : String)
    (h1 : truthyOpt (get_inline_style_property e (String.mk (lowerChars prop0.data))) = false)
    (hm : (rules.filter (fun r =>
        element_matches_selector e r.selector &&
          propsHas r.properties (String.mk (lowerChars prop0.data)))) = [])
    (hcolor : String.mk (lowerChars prop0.data) = "color")
    (hp : parents ≠ []) :
    get_computed_style rules (e :: parents) prop0
      = get_computed_style rules parents (String.mk (lowerChars prop0.data)) := by
  simp only [get_computed_style]
  rw [if_neg (by simp [h1]), hm]
  show (match (sortRulesDesc []).head? with
        | some top => propsGet top.properties (String.mk (lowerChars prop0.data))
        | none => _) = _
  simp only [sortRulesDesc, List.foldr, List.head?]
  rw [if_pos]
  · simp [hcolor, hp]

/-- Precedence step 4: otherwise the hard-coded default applies. -/
theorem get_computed_style_default (rules : List StyleRule) (e : EData)
    (parents : List EData) (prop0 : String)
    (h1 : truthyOpt (get_inline_style_property e (String.mk (lowerChars prop0.data))) = false)
    (hm : (rules.filter (fun r =>
        element_matches_selector e r.selector &&
          propsHas r.properties (String.mk (lowerChars prop0.data)))) = [])
    (hnc : ¬(String.mk (lowerChars prop0.data) = "color" ∧ parents ≠ [])) :
    get_computed_style rules (e :: parents) prop0
      = get_default_value (String.mk (lowerChars prop0.data)) := by
  simp only [get_computed_style]
  rw [if_neg (by simp [h1]), hm]
  show (match (sortRulesDesc []).head? with
        | some top => propsGet top.properties (String.mk (lowerChars prop0.data))
        | none => _) = _
  simp only [sortRulesDesc, List.foldr, List.head?]
  rw [if_neg]
  · intro hcond
    simp only [Bool.and_eq_true, beq_iff_eq] at hcond
    refine hnc ⟨hcond.1, ?_⟩
    intro hp
    rw [hp] at hcond
    simp at hcond

/-- Claim C2: `get_computed_style` resolves in exactly the precedence
(1) truthy inline declaration; (2) otherwise a matching rule of maximal
specificity declaring the property; (3) otherwise inheritance from the
parent for `color`; (4) otherwise the hard-coded defaults
(`color:#000000`, `background-color:transparent`, `font-size:16px`,
`font-weight:normal`).  Concretely, `<p class="x" style="color:#111">`
with rules `.x{color:#222}` and `p{color:#333}` resolves its text color
to `#111111`, and with the inline style removed to `#222222`. -/
theorem C2_precedence :
    (∀ (rules : List StyleRule) (e : EData) (parents : List EData) (prop0 v : String),
      get_inline_style_property e (String.mk (lowerChars prop0.data)) = some v → v ≠ "" →
        get_computed_style rules (e :: parents) prop0 = some v) ∧
    (∀ (rules : List StyleRule) (e : EData) (parents : List EData) (prop0 : String),
      truthyOpt (get_inline_style_property e (String.mk (lowerChars prop0.data))) = false →
      (rules.filter (fun r =>
          element_matches_selector e r.selector &&
            propsHas r.properties (String.mk (lowerChars prop0.data)))) ≠ [] →
        ∃ m ∈ (rules.filter (fun r =>
            element_matches_selector e r.selector &&
              propsHas r.properties (String.mk (lowerChars prop0.data)))),
          (∀ r ∈ (rules.filter (fun r =>
              element_matches_selector e r.selector &&
                propsHas r.properties (String.mk (lowerChars prop0.data)))),
            specLtBool m.specificity r.specificity = false) ∧
          get_computed_style rules (e :: parents) prop0
            = propsGet m.properties (String.mk (lowerChars prop0.data))) ∧
    (∀ (rules : List StyleRule) (e : EData) (parents : List EData) (prop0 : String),
      truthyOpt (get_inline_style_property e (String.mk (lowerChars prop0.data))) = false →
      (rules.filter (fun r =>
          element_matches_selector e r.selector &&
            propsHas r.properties (String.mk (lowerChars prop0.data)))) = [] →
      String.mk (lowerChars prop0.data) = "color" → parents ≠ [] →
        get_computed_style rules (e :: parents) prop0
          = get_computed_style rules parents (String.mk (lowerChars prop0.data))) ∧
    (∀ (rules : List StyleRule) (e : EData) (parents : List EData) (prop0 : String),
      truthyOpt (get_inline_style_property e (String.mk (lowerChars prop0.data))) = false →
      (rules.filter (fun r =>
          element_matches_selector e r.selector &&
            propsHas r.properties (String.mk (lowerChars prop0.data)))) = [] →
      ¬(String.mk (lowerChars prop0.data) = "color" ∧ parents ≠ []) →
        get_computed_style rules (e :: parents) prop0
          = get_default_value (String.mk (lowerChars prop0.data))) ∧
    get_text_color (parse_css_text ".x{color:#222} p{color:#333}")
      [{ name := "p", classes := ["x"], style := some "color:#111" }] = "#111111" ∧
    get_text_color (parse_css_text ".x{color:#222} p{color:#333}")
      [{ name := "p", classes := ["x"] }] = "#222222" :=
  ⟨fun rules e parents prop0 v hv hne =>
      get_computed_style_inline rules e parents prop0 v hv hne,
   fun rules e parents prop0 h1 hne =>
      get_computed_style_rule rules e parents prop0 h1 hne,
   fun rules e parents prop0 h1 hm hcolor hp =>
      get_computed_style_inherit rules e parents prop0 h1 hm hcolor hp,
   fun rules e parents prop0 h1 hm hnc =>
      get_computed_style_default rules e parents prop0 h1 hm hnc,
   by decide, by decide⟩

/-- Witness for C2: the inline branch at the concrete cascade example. -/
theorem C2_precedence_witness :
    get_computed_style (parse_css_text ".x{color:#222} p{color:#333}")
      [{ name := "p", classes := ["x"], style := some "color:#111" }] "color" = some "#111" :=
  C2_precedence.1 (parse_css_text ".x{color:#222} p{color:#333}")
    { name := "p", classes := ["x"], style := some "color:#111" } [] "color" "#111"
    (by decide) (by decide)

/-- Claim C3 counterexample: with the equal-specificity rules
`p{color:#111}` declared before `p{color:#222}`, the computed color is
the earlier `#111`, not the later `#222` the claim predicts (Python's
stable descending sort keeps the earlier rule first). -/
theorem C3_counterexample :
    get_computed_style (parse_css_text "p{color:#111} p{color:#222}")
      [{ name := "p" }] "color" = some "#111" ∧ ("#111" : String) ≠ "#222" :=
  ⟨by decide, by decide⟩

/-- Claim C3 (amended): among matching rules that all share one
specificity and declare the property, `get_computed_style` returns the
value of the rule declared EARLIEST in source order: the stable
descending sort keeps declaration order among ties, and the code takes
the first element. -/
theorem C3_amended (rules : List StyleRule) (e : EData) (parents : List EData)
    (prop0 : String) (m0 : StyleRule) (s0 : ℕ × ℕ × ℕ)
    (h1 : truthyOpt (get_inline_style_property e (String.mk (lowerChars prop0.data))) = false)
    (hall : (rules.filter (fun r =>
        element_matches_selector e r.selector &&
          propsHas r.properties (String.mk (lowerChars prop0.data)))).all
          (fun r => r.specificity == s0) = true)
    (hhead : (rules.filter (fun r =>
        element_matches_selector e r.selector &&
          propsHas r.properties (String.mk (lowerChars prop0.data)))).head? = some m0) :
    get_computed_style rules (e :: parents) prop0
      = propsGet m0.properties (String.mk (lowerChars prop0.data)) := by
  simp only [get_computed_style]
  rw [if_neg (by simp [h1])]
  rw [sortRulesDesc_head, firstMaxRule_all_eq hall, hhead]

/-- Witness for the amended C3 at the two-rule tie. -/
theorem C3_amended_witness :
    get_computed_style (parse_css_text "p{color:#111} p{color:#222}")
      [{ name := "p" }] "color"
      = propsGet [("color", "#111")] (String.mk (lowerChars "color".data)) :=
  C3_amended (parse_css_text "p{color:#111} p{color:#222}") { name := "p" } [] "color"
    { selector := "p", properties := [("color", "#111")], specificity := (0, 0, 1) }
    (0, 0, 1) (by decide) (by decide) (by decide)

/-! ### WCAG contrast (C7) -/

theorem gamma_correct_zero : gamma_correct 0 = 0 := by
  rw [gamma_correct, if_pos (by norm_num)]
  norm_num

theorem gamma_correct_one : gamma_correct 1 = 1 := by
  rw [gamma_correct, if_neg (by norm_num)]
  norm_num

theorem gamma_correct_nonneg {v : ℝ} (h : 0 ≤ v) : 0 ≤ gamma_correct v := by
  unfold gamma_correct
  split
  · exact div_nonneg h (by norm_num)
  · exact Real.rpow_nonneg (div_nonneg (by linarith) (by norm_num)) _

theorem relative_luminance_nonneg (rgb : ℕ × ℕ × ℕ) :
    0 ≤ relative_luminance rgb := by
  unfold relative_luminance
  have h1 := gamma_correct_nonneg (show (0 : ℝ) ≤ (rgb.1 : ℝ) / 255 by positivity)
  have h2 := gamma_correct_nonneg (show (0 : ℝ) ≤ (rgb.2.1 : ℝ) / 255 by positivity)
  have h3 := gamma_correct_nonneg (show (0 : ℝ) ≤ (rgb.2.2 : ℝ) / 255 by positivity)
  dsimp only
  linarith

theorem relative_luminance_black : relative_luminance (0, 0, 0) = 0 := by
  simp only [relative_luminance]
  norm_num [gamma_correct_zero]

theorem relative_luminance_white : relative_luminance (255, 255, 255) = 1 := by
  simp only [relative_luminance]
  norm_num [gamma_correct_one]

/-- The maximum/minimum form of the ratio. -/
theorem calculate_contrast_maxmin (c1 c2 : String) :
    calculate_contrast_ratio c1 c2 =
      (max (relative_luminance (hex_to_rgb c1)) (relative_luminance (hex_to_rgb c2)) + 0.05) /
        (min (relative_luminance (hex_to_rgb c1)) (relative_luminance (hex_to_rgb c2)) + 0.05) := by
  simp only [calculate_contrast_ratio]
  by_cases h : relative_luminance (hex_to_rgb c1) > relative_luminance (hex_to_rgb c2)
  · rw [if_pos h, max_eq_left h.le, min_eq_right h.le]
  · push_neg at h
    rw [if_neg (by push_neg; exact h), max_eq_right h, min_eq_left h]

/-- The exact value at the extreme pair. -/
theorem calculate_contrast_black_white :
    calculate_contrast_ratio "#000000" "#FFFFFF" = 21 := by
  simp only [calculate_contrast_ratio]
  rw [show hex_to_rgb "#000000" = (0, 0, 0) from by decide,
      show hex_to_rgb "#FFFFFF" = (255, 255, 255) from by decide,
      relative_luminance_black, relative_luminance_white]
  norm_num

/-- Claim C7: the contrast ratio equals `(Lmax+0.05)/(Lmin+0.05)` over
the two relative luminances, is symmetric, is exactly `1` on equal
arguments, and is within `0.1` of `21` on black versus white (in fact
exactly `21`). -/
theorem C7_contrast :
    (∀ c1 c2 : String,
      calculate_contrast_ratio c1 c2 =
        (max (relative_luminance (hex_to_rgb c1)) (relative_luminance (hex_to_rgb c2)) + 0.05) /
          (min (relative_luminance (hex_to_rgb c1)) (relative_luminance (hex_to_rgb c2)) + 0.05)) ∧
    (∀ c1 c2 : String, calculate_contrast_ratio c1 c2 = calculate_contrast_ratio c2 c1) ∧
    (∀ c : String, calculate_contrast_ratio c c = 1) ∧
    |calculate_contrast_ratio "#000000" "#FFFFFF" - 21| ≤ 0.1 := by
  refine ⟨calculate_contrast_maxmin, ?_, ?_, ?_⟩
  · intro c1 c2
    rw [calculate_contrast_maxmin, calculate_contrast_maxmin, max_comm, min_comm]
  · intro c
    rw [calculate_contrast_maxmin, max_self, min_self]
    have h := relative_luminance_nonneg (hex_to_rgb c)
    have : relative_luminance (hex_to_rgb c) + 0.05 ≠ 0 := by linarith
    exact div_self this
  · rw [calculate_contrast_black_white]
    norm_num

/-! ### The contrast check pipeline (C5, C10) -/

theorem expectChar_some_length {a : Char} {cs r : List Char}
    (h : expectChar a cs = some r) : r.length < cs.length := by
  cases cs with
  | nil => simp [expectChar] at h
  | cons x xs =>
    simp only [expectChar] at h
    split at h
    · obtain rfl := Option.some.inj h
      simp
    · simp at h

theorem expectChar_some_head {a : Char} {cs r : List Char}
    (h : expectChar a cs = some r) : cs.head? = some a := by
  cases cs with
  | nil => simp [expectChar] at h
  | cons x xs =>
    simp only [expectChar] at h
    split at h
    · simp_all
    · simp at h

theorem expectDigits_some_length {cs : List Char} {p : ℕ × List Char}
    (h : expectDigits cs = some p) : p.2.length ≤ cs.length := by
  simp only [expectDigits] at h
  split at h
  · simp at h
  · obtain rfl := (Option.some.inj h).symm
    simp

theorem dropWhile_length_le (p : Char → Bool) (cs : List Char) :
    (cs.dropWhile p).length ≤ cs.length := by
  induction cs with
  | nil => simp
  | cons c rest ih =>
    rw [List.dropWhile]
    split
    · simp only [List.length_cons]
      omega
    · simp

theorem rgbAltAt_head {cs v : List Char} (h : rgbAltAt cs = some v) :
    v.head? = some 'r' := by
  simp only [rgbAltAt, Option.bind_eq_bind, Option.bind_eq_some] at h
  obtain ⟨t0, h0, t1, h1, t2, h2, t3, h3, p4, h4, t5, h5, p6, h6, t7, h7, p8, h8, t9, h9, hv⟩ := h
  obtain rfl := (Option.some.inj hv).symm
  have l0 := expectChar_some_length h0
  have l1 := expectChar_some_length h1
  have l2 := expectChar_some_length h2
  have l3 := expectChar_some_length h3
  have l4 : p4.2.length ≤ t3.length :=
    le_trans (expectDigits_some_length h4) (dropWhile_length_le _ _)
  have l5 : t5.length < p4.2.length :=
    lt_of_lt_of_le (expectChar_some_length h5) (dropWhile_length_le _ _)
  have l6 : p6.2.length ≤ t5.length :=
    le_trans (expectDigits_some_length h6) (dropWhile_length_le _ _)
  have l7 : t7.length < p6.2.length :=
    lt_of_lt_of_le (expectChar_some_length h7) (dropWhile_length_le _ _)
  have l8 : p8.2.length ≤ t7.length :=
    le_trans (expectDigits_some_length h8) (dropWhile_length_le _ _)
  have l9 : t9.length < p8.2.length :=
    lt_of_lt_of_le (expectChar_some_length h9) (dropWhile_length_le _ _)
  have hr := expectChar_some_head h0
  cases cs with
  | nil => simp at hr
  | cons x xs =>
    obtain rfl : x = 'r' := by simpa using hr
    simp only [List.length_cons] at l0
    rw [show ('r' :: xs).length - t9.length = (xs.length - t9.length) + 1 from by
      simp only [List.length_cons]; omega]
    rw [List.take_succ_cons]
    simp

theorem hexAltAt_head {cs v : List Char} (h : hexAltAt cs = some v) :
    v.head? = some '#' := by
  cases cs with
  | nil => simp [hexAltAt] at h
  | cons x xs =>
    by_cases hx : x = '#'
    · subst hx
      simp only [hexAltAt] at h
      split at h
      · obtain rfl := (Option.some.inj h).symm
        rfl
      · simp at h
    · rw [show hexAltAt (x :: xs) = none from by
        cases x <;> simp_all [hexAltAt]] at h
      simp at h

theorem colorValueAt_head {cs v : List Char} (h : colorValueAt cs = some v) :
    v.head? = some '#' ∨ v.head? = some 'r' := by
  unfold colorValueAt at h
  cases hh : hexAltAt cs with
  | some g => rw [hh] at h; exact Or.inl (hexAltAt_head (hh.trans h))
  | none => rw [hh] at h; exact Or.inr (rgbAltAt_head h)

theorem searchStyleColor_head {key : List Char} {v : List Char} :
    ∀ {fuel : ℕ} {cs : List Char}, searchStyleColor key fuel cs = some v →
      v.head? = some '#' ∨ v.head? = some 'r' := by
  intro fuel
  induction fuel with
  | zero => intro cs h; simp [searchStyleColor] at h
  | succ n ih =>
    intro cs h
    cases cs with
    | nil => simp [searchStyleColor] at h
    | cons c rest =>
      simp only [searchStyleColor] at h
      split at h
      · split at h
        · next g hg => exact colorValueAt_head (hg.trans h)
        · exact ih h
      · exact ih h

theorem check_normalize_hash_or_r {s : String}
    (hh : s.data.head? = some '#' ∨ s.data.head? = some 'r') :
    (check_normalize_color s).data.head? = some '#' ∨
      (check_normalize_color s).data.head? = some 'r' := by
  unfold check_normalize_color
  rcases hh with hh | hh
  · rw [if_pos hh]
    rcases hd : s.data with _ | ⟨c, cs⟩
    · rw [hd] at hh; simp at hh
    · obtain rfl : c = '#' := by rw [hd] at hh; simpa using hh
      rcases cs with _ | ⟨r, _ | ⟨g, _ | ⟨b, _ | ⟨e, t⟩⟩⟩⟩ <;> simp [hd, upperChars]
  · rw [if_neg (by rw [hh]; simp)]
    cases hm : rgbFullMatch s.data with
    | some t => obtain ⟨r, g, b⟩ := t; left; rfl
    | none => right; exact hh

theorem check_normalize_good {s : String}
    (hh : s.data.head? = some '#' ∨ s.data.head? = some 'r') :
    check_normalize_color s ≠ "" ∧ check_normalize_color s ≠ "transparent" := by
  have h2 := check_normalize_hash_or_r hh
  constructor <;> intro heq <;> rw [heq] at h2 <;>
    rcases h2 with h2 | h2 <;> exact absurd h2 (by decide)

theorem fallback_text_color_good (e : EData) :
    fallback_text_color e ≠ "" ∧ fallback_text_color e ≠ "transparent" := by
  unfold fallback_text_color
  split
  · cases hs : searchColorValue "color:" (e.style.getD "") with
    | some v =>
      unfold searchColorValue at hs
      exact check_normalize_good (s := String.mk v) (searchStyleColor_head hs)
    | none => exact ⟨by decide, by decide⟩
  · exact ⟨by decide, by decide⟩

theorem fallback_bg_walk_good (anc : List EData) :
    fallback_bg_walk anc ≠ "" ∧ fallback_bg_walk anc ≠ "transparent" := by
  induction anc with
  | nil => exact ⟨by decide, by decide⟩
  | cons p rest ih =>
    unfold fallback_bg_walk
    split
    · exact ⟨by decide, by decide⟩
    · split
      · next v hv =>
        split at hv
        · unfold searchColorValue at hv
          exact check_normalize_good (s := String.mk v) (searchStyleColor_head hv)
        · simp at hv
      · exact ih

theorem fallback_bg_color_good (e : EData) (anc : List EData) :
    fallback_bg_color e anc ≠ "" ∧ fallback_bg_color e anc ≠ "transparent" := by
  unfold fallback_bg_color
  split
  · next v hv =>
    split at hv
    · unfold searchColorValue at hv
      exact check_normalize_good (s := String.mk v) (searchStyleColor_head hv)
    · simp at hv
  · exact fallback_bg_walk_good anc

theorem if_bad_fallback_good (s fb : String) (hfb : fb ≠ "" ∧ fb ≠ "transparent") :
    (if s == "" || s == "transparent" then fb else s) ≠ "" ∧
      (if s == "" || s == "transparent" then fb else s) ≠ "transparent" := by
  split
  · exact hfb
  · next hcond =>
      simp only [Bool.or_eq_true, beq_iff_eq, not_or] at hcond
      exact hcond

theorem mem_ite_singleton {α : Type} {c : Prop} [Decidable c] {i r : α}
    (h : i ∈ (if c then [r] else [])) : i = r := by
  split at h
  · simpa using h
  · simp at h

/-- Claim C5 (amended): the fallback color resolvers always return a
concrete color (black/white defaults or a parsed inline value), so the
undetermined branch of `ColorContrastCheck.check` is unreachable: no
`potential-color-contrast-issue` is ever emitted, for any document and
configuration, whatever the elements' style or class attributes. -/
theorem C5_amended (doc : HForest) (level : String) :
    ((color_contrast_check doc level).all
      (fun i => i.issue_type != "potential-color-contrast-issue")) = true := by
  rw [List.all_eq_true]
  intro i hi
  simp only [color_contrast_check] at hi
  rw [List.mem_flatMap] at hi
  obtain ⟨f, hf, hin⟩ := hi
  simp only [check_element_issues] at hin
  split at hin
  · simp at hin
  · have htc := if_bad_fallback_good
      (get_text_color (parse_all_styles doc) (f.data :: f.ancestors))
      (fallback_text_color f.data) (fallback_text_color_good f.data)
    have hbg := if_bad_fallback_good
      (get_background_color (parse_all_styles doc) (f.data :: f.ancestors))
      (fallback_bg_color f.data f.ancestors) (fallback_bg_color_good f.data f.ancestors)
    set tc := (if get_text_color (parse_all_styles doc) (f.data :: f.ancestors) == "" ||
          get_text_color (parse_all_styles doc) (f.data :: f.ancestors) == "transparent" then
        fallback_text_color f.data
      else get_text_color (parse_all_styles doc) (f.data :: f.ancestors)) with htceq
    set bg := (if get_background_color (parse_all_styles doc) (f.data :: f.ancestors) == "" ||
          get_background_color (parse_all_styles doc) (f.data :: f.ancestors) == "transparent" then
        fallback_bg_color f.data f.ancestors
      else get_background_color (parse_all_styles doc) (f.data :: f.ancestors)) with hbgeq
    split at hin
    · next hcond =>
        exfalso
        simp only [Bool.or_eq_true, beq_iff_eq] at hcond
        rcases hcond with ((h | h) | h) | h
        · exact htc.1 h
        · exact hbg.1 h
        · exact htc.2 h
        · exact hbg.2 h
    · rw [List.mem_append] at hin
      rcases hin with hin | hin
      · rw [mem_ite_singleton hin]
        rfl
      · split at hin
        · rw [mem_ite_singleton hin]
          rfl
        · simp at hin

/-- Claim C5 counterexample: a `<p class=\"x\" style=\"color:transparent\">`
element whose text color resolves to `transparent` and which has a class
attribute - the claim requires a minor `potential-color-contrast-issue`
for it, but the check emits no issue at all (the fallbacks substitute
black on white, whose ratio 21 passes AA). -/
theorem C5_counterexample :
    get_text_color (parse_all_styles c5Doc) [c5Elem] = "transparent" ∧
      c5Elem.classes ≠ [] ∧
      color_contrast_check c5Doc "AA" = [] := by
  refine ⟨by decide, by decide, ?_⟩
  simp only [color_contrast_check]
  rw [show parse_all_styles c5Doc = [] from by decide]
  rw [show find_text_elements c5Doc
      = [⟨c5Elem, [], .cons (.text "hi") .nil⟩] from by decide]
  simp only [List.flatMap_cons, List.flatMap_nil, List.append_nil]
  have h1 : get_text_color [] [c5Elem] = "transparent" := by decide
  have h2 : get_background_color [] [c5Elem] = "#FFFFFF" := by decide
  have h3 : fallback_text_color c5Elem = "#000000" := by decide
  have h4 : is_large_text [] [c5Elem] = false := by
    simp only [is_large_text, get_font_size]
    rw [show get_computed_style [] [c5Elem] "font-size" = some "16px" from by decide]
    simp only []
    rw [show fontSizeSearch ("16px".data.length + 1) "16px".data = some ((16, 0, 0), "px")
        from by decide]
    simp only [show (("px" : String) == "pt") = false from by decide,
               show (("px" : String) == "em") = false from by decide,
               show (("px" : String) == "rem") = false from by decide,
               Bool.false_eq_true, if_false]
    norm_num [decimalValue]
    decide
  have h5 : (pyStripChars (forest_text (.cons (.text "hi") .nil))).isEmpty = false := by decide
  have d1 : (("transparent" : String) == "") = false := by decide
  have d2 : (("transparent" : String) == "transparent") = true := by decide
  have d3 : (("#FFFFFF" : String) == "") = false := by decide
  have d4 : (("#FFFFFF" : String) == "transparent") = false := by decide
  have d5 : (("#000000" : String) == "") = false := by decide
  have d6 : (("#000000" : String) == "transparent") = false := by decide
  have d7 : ((String.mk (upperChars "AA".data) : String) == "AAA") = false := by decide
  simp only [check_element_issues, h1, h2, h3, h4, h5, d1, d2, d3, d4, d5, d6, d7,
    Bool.false_or, Bool.or_false, Bool.or_true, Bool.true_or, if_true, if_false,
    Bool.false_eq_true, Bool.true_eq_false]
  norm_num [calculate_contrast_black_white]

/-- Claim C10: every issue emitted by `ColorContrastCheck.check` is for
an element whose tag is among the thirteen text-bearing tags and whose
text content is nonempty after stripping; elements outside that set, or
with whitespace-only text, receive no issue of any type. -/
theorem C10_scope (doc : HForest) (level : String) :
    ((color_contrast_check doc level).all
      (fun i => text_element_tags.contains i.elemData.name
        && !(pyStripChars i.elemText.data).isEmpty)) = true := by
  rw [List.all_eq_true]
  intro i hi
  simp only [color_contrast_check] at hi
  rw [List.mem_flatMap] at hi
  obtain ⟨f, hf, hin⟩ := hi
  have htag : text_element_tags.contains f.data.name = true := by
    simp only [find_text_elements, List.mem_filter] at hf
    exact hf.2
  simp only [check_element_issues] at hin
  split at hin
  · simp at hin
  · next hne =>
    set tc := (if get_text_color (parse_all_styles doc) (f.data :: f.ancestors) == "" ||
          get_text_color (parse_all_styles doc) (f.data :: f.ancestors) == "transparent" then
        fallback_text_color f.data
      else get_text_color (parse_all_styles doc) (f.data :: f.ancestors)) with htceq
    set bg := (if get_background_color (parse_all_styles doc) (f.data :: f.ancestors) == "" ||
          get_background_color (parse_all_styles doc) (f.data :: f.ancestors) == "transparent" then
        fallback_bg_color f.data f.ancestors
      else get_background_color (parse_all_styles doc) (f.data :: f.ancestors)) with hbgeq
    have hfields : i.elemData = f.data ∧ i.elemText = String.mk (forest_text f.kids) := by
      split at hin
      · split at hin
        · simp only [List.mem_singleton] at hin
          rw [hin]
          exact ⟨rfl, rfl⟩
        · simp at hin
      · rw [List.mem_append] at hin
        rcases hin with hin | hin
        · rw [mem_ite_singleton hin]
          exact ⟨rfl, rfl⟩
        · split at hin
          · rw [mem_ite_singleton hin]
            exact ⟨rfl, rfl⟩
          · simp at hin
    rw [Bool.and_eq_true]
    refine ⟨by rw [hfields.1]; exact htag, ?_⟩
    rw [hfields.2]
    simp only [Bool.not_eq_true] at hne
    simp only [Bool.not_eq_true']
    exact hne

/-! ### Interactive elements and `dom_index` (C6) -/


/-- The filterMap body of `_get_elements_with_position` keeps the
enumeration index as `dom_index` and the element itself. -/
theorem posElem_of_mem {ie : ℕ × TElem} {p : PosElem}
    (h : (match extract_bbox ie.2 with
          | some (x, y, w, h) => some (⟨ie.2, ie.1, x, y, w, h⟩ : PosElem)
          | none => none) = some p) :
    p.dom_index = ie.1 ∧ p.elem = ie.2 := by
  cases hb : extract_bbox ie.2 with
  | none => rw [hb] at h; simp at h
  | some b =>
      obtain ⟨x, y, w, hh⟩ := b
      rw [hb] at h
      obtain rfl := Option.some.inj h
      exact ⟨rfl, rfl⟩

/-- Every recorded `dom_index` is at least the enumeration start. -/
theorem domIndex_ge (n : ℕ) (l : List TElem) :
    ∀ p ∈ (List.enumFrom n l).filterMap
      (fun ie =>
        match extract_bbox ie.2 with
        | some (x, y, w, h) => some (⟨ie.2, ie.1, x, y, w, h⟩ : PosElem)
        | none => none), n ≤ p.dom_index := by
  induction l generalizing n with
  | nil => intro p hp; simp at hp
  | cons e es ih =>
    intro p hp
    rw [List.enumFrom_cons, List.filterMap_cons] at hp
    split at hp
    · exact le_trans (by omega) (ih (n + 1) p hp)
    · next q hq =>
      rcases List.mem_cons.mp hp with hp | hp
      · subst hp
        exact le_of_eq (posElem_of_mem hq).1.symm
      · exact le_trans (by omega) (ih (n + 1) p hp)

/-- Recorded `dom_index` values are strictly increasing. -/
theorem domIndex_pairwise (n : ℕ) (l : List TElem) :
    ((List.enumFrom n l).filterMap
      (fun ie =>
        match extract_bbox ie.2 with
        | some (x, y, w, h) => some (⟨ie.2, ie.1, x, y, w, h⟩ : PosElem)
        | none => none)).Pairwise (fun a b => a.dom_index < b.dom_index) := by
  induction l generalizing n with
  | nil => simp
  | cons e es ih =>
    rw [List.enumFrom_cons, List.filterMap_cons]
    split
    · exact ih (n + 1)
    · next q hq =>
      refine List.Pairwise.cons ?_ (ih (n + 1))
      intro b hb
      rw [(posElem_of_mem hq).1]
      exact lt_of_lt_of_le (by omega) (domIndex_ge (n + 1) es b hb)

/-- Each entry's `dom_index` is its element's index in the list passed
to `_get_elements_with_position`. -/
theorem domIndex_getElem (elems : List TElem) :
    ∀ p ∈ get_elements_with_position elems, elems[p.dom_index]? = some p.elem := by
  intro p hp
  unfold get_elements_with_position at hp
  rw [List.mem_filterMap] at hp
  obtain ⟨ie, hie, hg⟩ := hp
  obtain ⟨hidx, helem⟩ := posElem_of_mem hg
  rw [hidx, helem]
  exact List.mem_enum_iff_getElem?.mp hie


/-- Claim C6 counterexample: with a button before a link in the
document, the selector-major collection gives the link `dom_index` 0
and the button `dom_index` 1, so the element earlier in document order
has the LARGER index - the claim's pre-order characterisation fails. -/
theorem C6_counterexample :
    [c6Btn, c6Lnk].map (fun e => e.tag) = ["button", "a"] ∧
      (get_elements_with_position (get_interactive_elements [c6Btn, c6Lnk])).map
        (fun p => (p.elem.tag, p.dom_index)) = [("a", 0), ("button", 1)] :=
  ⟨by decide, by decide⟩

/-- Claim C6 (amended): `dom_index` is the element's index in the
interactive list built selector-by-selector (all `a[href]` matches in
document order, then `button:not([disabled])`, and so on, skipping
duplicates), recorded before any reordering; the recorded indices are
strictly increasing in that list's order, but across different
selectors an element earlier in document order can receive a larger
`dom_index`. -/
theorem C6_amended :
    (∀ elems : List TElem,
      (get_elements_with_position elems).Forall
        (fun p => elems[p.dom_index]? = some p.elem)) ∧
    (∀ elems : List TElem,
      (get_elements_with_position elems).Pairwise
        (fun a b => a.dom_index < b.dom_index)) := by
  constructor
  · intro elems
    rw [List.forall_iff_forall_mem]
    exact domIndex_getElem elems
  · intro elems
    exact domIndex_pairwise 0 elems


theorem insertAscBy_perm {α : Type} (key : α → ℚ) (x : α) (l : List α) :
    List.Perm (insertAscBy key x l) (x :: l) := by
  induction l with
  | nil => exact List.Perm.refl _
  | cons y ys ih =>
    unfold insertAscBy
    split
    · exact (ih.cons y).trans (List.Perm.swap x y ys)
    · exact List.Perm.refl _

theorem pySortAscBy_perm {α : Type} (key : α → ℚ) (l : List α) :
    List.Perm (pySortAscBy key l) l := by
  induction l with
  | nil => exact List.Perm.refl _
  | cons x xs ih =>
    show List.Perm (insertAscBy key x (pySortAscBy key xs)) (x :: xs)
    exact (insertAscBy_perm key x _).trans (ih.cons x)

theorem insertAscBy_pairwise {α : Type} (key : α → ℚ) (x : α) (l : List α)
    (h : l.Pairwise (fun a b => key a ≤ key b)) :
    (insertAscBy key x l).Pairwise (fun a b => key a ≤ key b) := by
  induction l with
  | nil => simp [insertAscBy]
  | cons y ys ih =>
    rw [List.pairwise_cons] at h
    unfold insertAscBy
    split
    · next hlt =>
      rw [List.pairwise_cons]
      refine ⟨?_, ih h.2⟩
      intro z hz
      rcases List.mem_cons.mp (((insertAscBy_perm key x ys).mem_iff).mp hz) with hz | hz
      · subst hz; exact le_of_lt hlt
      · exact h.1 z hz
    · next hge =>
      rw [List.pairwise_cons]
      refine ⟨?_, List.Pairwise.cons h.1 h.2⟩
      intro z hz
      rcases List.mem_cons.mp hz with hz | hz
      · subst hz; exact le_of_not_lt hge
      · exact le_trans (le_of_not_lt hge) (h.1 z hz)

theorem pySortAscBy_pairwise {α : Type} (key : α → ℚ) (l : List α) :
    (pySortAscBy key l).Pairwise (fun a b => key a ≤ key b) := by
  induction l with
  | nil => simp [pySortAscBy]
  | cons x xs ih => exact insertAscBy_pairwise key x _ ih

theorem placeInRows_flatMap {α : Type} (getY getH : α → ℚ) (th : ℚ) (e : α)
    (rows rows2 : List (RowRec α))
    (h : placeInRows getY getH th e rows = some rows2) :
    List.Perm (rows2.flatMap (fun r => r.elements))
      (rows.flatMap (fun r => r.elements) ++ [e]) := by
  induction rows generalizing rows2 with
  | nil => simp [placeInRows] at h
  | cons r rs ih =>
    unfold placeInRows at h
    split at h
    · obtain rfl := Option.some.inj h
      simp only [List.flatMap_cons, List.append_assoc]
      exact List.Perm.append_left r.elements List.perm_append_comm
    · obtain ⟨rs2, hrs2, hb⟩ := Option.map_eq_some'.mp h
      subst hb
      simp only [List.flatMap_cons, List.append_assoc]
      exact List.Perm.append_left r.elements (ih rs2 hrs2)

theorem group_into_rows_aux {α : Type} (getY getH : α → ℚ) (th : ℚ)
    (l : List α) (rows : List (RowRec α)) :
    List.Perm
      ((l.foldl
        (fun rows e =>
          match placeInRows getY getH th e rows with
          | some rows2 => rows2
          | none => rows ++ [{ y_min := getY e, y_max := getY e + getH e, elements := [e] }])
        rows).flatMap (fun r => r.elements))
      (rows.flatMap (fun r => r.elements) ++ l) := by
  induction l generalizing rows with
  | nil => simp
  | cons e l ih =>
    rw [List.foldl_cons]
    refine (ih _).trans ?_
    have hstep : List.Perm
        ((match placeInRows getY getH th e rows with
          | some rows2 => rows2
          | none => rows ++ [{ y_min := getY e, y_max := getY e + getH e, elements := [e] }]
          : List (RowRec α)).flatMap (fun r => r.elements))
        (rows.flatMap (fun r => r.elements) ++ [e]) := by
      cases hpl : placeInRows getY getH th e rows with
      | some rows2 =>
        simp only []
        exact placeInRows_flatMap getY getH th e rows rows2 hpl
      | none =>
        simp
    refine (hstep.append_right l).trans ?_
    rw [List.append_assoc]
    rfl

theorem group_into_rows_perm {α : Type} (getY getH : α → ℚ) (th : ℚ) (l : List α) :
    List.Perm ((group_into_rows getY getH th l).flatMap (fun r => r.elements)) l := by
  have := group_into_rows_aux getY getH th l []
  simpa [group_into_rows] using this


theorem sort_by_visual_position_perm {α : Type} (getX getY getH : α → ℚ) (l : List α) :
    List.Perm (sort_by_visual_position getX getY getH l) l := by
  unfold sort_by_visual_position
  split
  · next he =>
    rw [List.isEmpty_iff.mp he]
  · have h1 : ((pySortAscBy (fun r => r.y_min) (group_into_rows getY getH 20 l)).map
        (fun r => pySortAscBy getX r.elements)).flatten =
        (pySortAscBy (fun r => r.y_min) (group_into_rows getY getH 20 l)).flatMap
          (fun r => pySortAscBy getX r.elements) := by
      rw [List.flatMap_def]
    rw [h1]
    have h2 : List.Perm
        ((pySortAscBy (fun r => r.y_min) (group_into_rows getY getH 20 l)).flatMap
          (fun r => pySortAscBy getX r.elements))
        ((pySortAscBy (fun r => r.y_min) (group_into_rows getY getH 20 l)).flatMap
          (fun r => r.elements)) :=
      List.Perm.flatMap_left _ (fun r _ => pySortAscBy_perm getX r.elements)
    have h3 : List.Perm
        ((pySortAscBy (fun r => r.y_min) (group_into_rows getY getH 20 l)).flatMap
          (fun r => r.elements))
        ((group_into_rows getY getH 20 l).flatMap (fun r => r.elements)) :=
      List.Perm.flatMap_right _ (pySortAscBy_perm _ _)
    exact (h2.trans h3).trans (group_into_rows_perm getY getH 20 l)

/-- C8: the canonical visual order is rows sorted ascending by y_min with
each row's elements sorted ascending by x, concatenated -- a permutation of
the input -- and the three-element example (y=0,x=50), (y=0,x=10), (y=100,x=0)
sorts to [second, first, third]. -/
theorem C8_visual_order :
    (∀ (α : Type) (getX getY getH : α → ℚ) (l : List α),
        List.Perm (sort_by_visual_position getX getY getH l) l
      ∧ (sort_by_visual_position getX getY getH l =
            if l.isEmpty then []
            else ((pySortAscBy (fun r => r.y_min) (group_into_rows getY getH 20 l)).map
              (fun r => pySortAscBy getX r.elements)).flatten)
      ∧ (pySortAscBy (fun r : RowRec α => r.y_min)
            (group_into_rows getY getH 20 l)).Pairwise
          (fun a b => a.y_min ≤ b.y_min)
      ∧ ((pySortAscBy (fun r : RowRec α => r.y_min)
            (group_into_rows getY getH 20 l)).map
           (fun r => pySortAscBy getX r.elements)).Forall
          (fun row => row.Pairwise (fun a b => getX a ≤ getX b)))
  ∧ sort_by_visual_position (fun e => e.x) (fun e => e.y) (fun e => e.h)
      [c8E1, c8E2, c8E3] = [c8E2, c8E1, c8E3] := by
  constructor
  · intro α getX getY getH l
    refine ⟨sort_by_visual_position_perm getX getY getH l, ?_, ?_, ?_⟩
    · rfl
    · exact pySortAscBy_pairwise _ _
    · rw [List.forall_iff_forall_mem]
      intro row hrow
      obtain ⟨r, _, rfl⟩ := List.mem_map.mp hrow
      exact pySortAscBy_pairwise _ _
  · norm_num [sort_by_visual_position, group_into_rows, placeInRows,
      pySortAscBy, insertAscBy, c8E1, c8E2, c8E3, List.foldl, List.foldr]

theorem mem_pyInsertAt {α : Type} (l : List α) (i : ℕ) (x n : α) :
    n ∈ pyInsertAt l i x ↔ n = x ∨ n ∈ l := by
  unfold pyInsertAt
  constructor
  · intro h
    rcases List.mem_append.mp h with h | h
    · exact Or.inr (List.mem_of_mem_take h)
    · rcases List.mem_cons.mp h with h | h
      · exact Or.inl h
      · exact Or.inr (List.mem_of_mem_drop h)
  · intro h
    rcases h with h | h
    · exact List.mem_append.mpr (Or.inr (List.mem_cons.mpr (Or.inl h)))
    · rw [← List.take_append_drop i l] at h
      rcases List.mem_append.mp h with h | h
      · exact List.mem_append.mpr (Or.inl h)
      · exact List.mem_append.mpr (Or.inr (List.mem_cons.mpr (Or.inr h)))

theorem mem_insFold (ps : List (ℕ × ℕ)) (pos : ℕ) (start : List ℕ) (n : ℕ) :
    (n ∈ ps.foldl (fun cs ie => pyInsertAt cs (pos + ie.1) ie.2) start ↔
      (∃ ie ∈ ps, ie.2 = n) ∨ n ∈ start) := by
  induction ps generalizing start with
  | nil => simp
  | cons p ps ih =>
    rw [List.foldl_cons, ih, mem_pyInsertAt]
    simp only [List.mem_cons]
    constructor
    · rintro (⟨ie, hie, rfl⟩ | h | h)
      · exact Or.inl ⟨ie, Or.inr hie, rfl⟩
      · exact Or.inl ⟨p, Or.inl rfl, h.symm⟩
      · exact Or.inr h
    · rintro (⟨ie, hie | hie, rfl⟩ | h)
      · exact Or.inr (Or.inl (by rw [hie]))
      · exact Or.inl ⟨ie, hie, rfl⟩
      · exact Or.inr (Or.inr h)

theorem mem_eraseFold (es : List ℕ) (children : List ℕ) (n : ℕ) (hn : n ∉ es) :
    (n ∈ es.foldl (fun cs e => cs.erase e) children ↔ n ∈ children) := by
  induction es generalizing children with
  | nil => simp
  | cons e es ih =>
    rw [List.foldl_cons,
        ih (children.erase e) (fun h => hn (List.mem_cons.mpr (Or.inr h)))]
    exact List.mem_erase_of_ne (fun h => hn (List.mem_cons.mpr (Or.inl h)))

theorem parentOf_cons (q1 : ℕ) (q2 : List ℕ) (rest : Dom) (n : ℕ) :
    parentOf ((q1, q2) :: rest) n =
      if q2.contains n then some q1 else parentOf rest n := by
  by_cases hc : q2.contains n = true
  · show (List.find? (fun q => q.2.contains n) ((q1, q2) :: rest)).map Prod.fst = _
    rw [@List.find?_cons_of_pos (ℕ × List ℕ) (fun q => q.2.contains n) (q1, q2) rest hc,
        if_pos hc]
    rfl
  · show (List.find? (fun q => q.2.contains n) ((q1, q2) :: rest)).map Prod.fst = _
    rw [@List.find?_cons_of_neg (ℕ × List ℕ) (fun q => q.2.contains n) (q1, q2) rest hc,
        if_neg hc]
    rfl

theorem childrenOf_cons (q1 : ℕ) (q2 : List ℕ) (rest : Dom) (pid : ℕ) :
    childrenOf ((q1, q2) :: rest) pid =
      if q1 == pid then q2 else childrenOf rest pid := by
  by_cases hq : (q1 == pid) = true
  · show (((List.find? (fun q => q.1 == pid) ((q1, q2) :: rest)).map Prod.snd).getD []) = _
    rw [@List.find?_cons_of_pos (ℕ × List ℕ) (fun q => q.1 == pid) (q1, q2) rest hq,
        if_pos hq]
    rfl
  · show (((List.find? (fun q => q.1 == pid) ((q1, q2) :: rest)).map Prod.snd).getD []) = _
    rw [@List.find?_cons_of_neg (ℕ × List ℕ) (fun q => q.1 == pid) (q1, q2) rest hq,
        if_neg hq]
    rfl

theorem updateChildren_cons (q1 : ℕ) (q2 : List ℕ) (rest : Dom) (pid : ℕ)
    (cs : List ℕ) :
    updateChildren ((q1, q2) :: rest) pid cs =
      if q1 == pid then (pid, cs) :: rest
      else (q1, q2) :: updateChildren rest pid cs := by
  by_cases hq : (q1 == pid) = true
  · rw [if_pos hq]
    show (if (q1, q2).1 == pid then (pid, cs) :: rest
          else (q1, q2) :: updateChildren rest pid cs) = _
    rw [if_pos hq]
  · rw [if_neg hq]
    show (if (q1, q2).1 == pid then (pid, cs) :: rest
          else (q1, q2) :: updateChildren rest pid cs) = _
    rw [if_neg hq]

theorem parentOf_updateChildren_eq (dom : Dom) (pid : ℕ) (cs : List ℕ) (n : ℕ)
    (h : cs.contains n = (childrenOf dom pid).contains n) :
    parentOf (updateChildren dom pid cs) n = parentOf dom n := by
  induction dom with
  | nil => rfl
  | cons q rest ih =>
    obtain ⟨q1, q2⟩ := q
    rw [childrenOf_cons] at h
    rw [updateChildren_cons]
    by_cases hq : (q1 == pid) = true
    · rw [if_pos hq] at h
      rw [if_pos hq, parentOf_cons, parentOf_cons, h]
      have hqe : q1 = pid := by simpa using hq
      rw [hqe]
    · rw [if_neg hq] at h
      rw [if_neg hq, parentOf_cons, parentOf_cons]
      by_cases hc : q2.contains n = true
      · rw [if_pos hc, if_pos hc]
      · rw [if_neg hc, if_neg hc]
        exact ih h

theorem parentOf_updateChildren_mem (dom : Dom) (pid : ℕ) (cs : List ℕ) (n : ℕ)
    (hmem : cs.contains n = true) (h : parentOf dom n = some pid) :
    parentOf (updateChildren dom pid cs) n = some pid := by
  induction dom with
  | nil => simp [parentOf] at h
  | cons q rest ih =>
    obtain ⟨q1, q2⟩ := q
    rw [parentOf_cons] at h
    rw [updateChildren_cons]
    by_cases hq : (q1 == pid) = true
    · rw [if_pos hq, parentOf_cons, if_pos hmem]
    · rw [if_neg hq, parentOf_cons]
      by_cases hc : q2.contains n = true
      · rw [if_pos hc] at h
        have hqe : q1 = pid := by simpa using h
        exact absurd (by simp [hqe]) hq
      · rw [if_neg hc] at h
        rw [if_neg hc]
        exact ih h

theorem contains_of_mem {l : List ℕ} {n : ℕ} (h : n ∈ l) : l.contains n = true := by
  have h1 : l.contains n = decide (n ∈ l) := List.elem_eq_mem n l
  rw [h1]
  exact decide_eq_true h

theorem contains_congr {l l2 : List ℕ} (n : ℕ) (h : (n ∈ l) ↔ (n ∈ l2)) :
    l.contains n = l2.contains n := by
  have h1 : l.contains n = decide (n ∈ l) := List.elem_eq_mem n l
  have h2 : l2.contains n = decide (n ∈ l2) := List.elem_eq_mem n l2
  rw [h1, h2]
  exact decide_eq_decide.mpr h

theorem reorder_siblings_parentOf (dom : Dom) (p : Option ℕ) (es : List ℕ)
    (n : ℕ) :
    parentOf (reorder_siblings dom p es) n = parentOf dom n := by
  unfold reorder_siblings
  split
  · rfl
  split
  · rfl
  next hall =>
  rcases p with _ | pid
  · rcases es with _ | ⟨e0, tl⟩ <;> rfl
  rcases es with _ | ⟨e0, tl⟩
  · rfl
  show parentOf
      (match (childrenOf dom pid).findIdx? (fun c => c == e0) with
       | some pos =>
           updateChildren dom pid
             ((e0 :: tl).enum.foldl (fun cs ie => pyInsertAt cs (pos + ie.1) ie.2)
               ((e0 :: tl).foldl (fun cs e => cs.erase e) (childrenOf dom pid)))
       | none => dom) n = parentOf dom n
  have hall2 : (e0 :: tl).all (fun e => parentOf dom e == some pid) = true := by
    revert hall
    cases (e0 :: tl).all (fun e => parentOf dom e == some pid) <;> simp
  split
  · next pos hpos =>
    by_cases hn : n ∈ e0 :: tl
    · have hpar : parentOf dom n = some pid := by
        have := List.all_eq_true.mp hall2 n hn
        simpa using this
      have hmm : n ∈ (e0 :: tl).enum.foldl
          (fun cs ie => pyInsertAt cs (pos + ie.1) ie.2)
          ((e0 :: tl).foldl (fun cs e => cs.erase e) (childrenOf dom pid)) := by
        refine (mem_insFold _ pos _ n).mpr (Or.inl ?_)
        have hms : n ∈ (e0 :: tl).enum.map Prod.snd := by
          rw [List.enum_map_snd]
          exact hn
        obtain ⟨ie, hie, he⟩ := List.mem_map.mp hms
        exact ⟨ie, hie, he⟩
      rw [hpar]
      exact parentOf_updateChildren_mem dom pid _ n (contains_of_mem hmm) hpar
    · have h1 : (n ∈ (e0 :: tl).enum.foldl
          (fun cs ie => pyInsertAt cs (pos + ie.1) ie.2)
          ((e0 :: tl).foldl (fun cs e => cs.erase e) (childrenOf dom pid))) ↔
          n ∈ childrenOf dom pid := by
        rw [mem_insFold]
        constructor
        · rintro (⟨ie, hie, rfl⟩ | h)
          · refine absurd ?_ hn
            rw [← List.enum_map_snd (e0 :: tl)]
            exact List.mem_map.mpr ⟨ie, hie, rfl⟩
          · exact (mem_eraseFold (e0 :: tl) _ n hn).mp h
        · intro h
          exact Or.inr ((mem_eraseFold (e0 :: tl) _ n hn).mpr h)
      exact parentOf_updateChildren_eq dom pid _ n (contains_congr n h1)
  · rfl

theorem reorder_fold_parentOf (groups : List (Option ℕ × List ℕ)) (d : Dom)
    (n : ℕ) :
    parentOf
      (groups.foldl
        (fun d g => if 1 < g.2.length then reorder_siblings d g.1 g.2 else d) d) n =
      parentOf d n := by
  induction groups generalizing d with
  | nil => rfl
  | cons g gs ih =>
    rw [List.foldl_cons, ih]
    by_cases hg : 1 < g.2.length
    · rw [if_pos hg, reorder_siblings_parentOf]
    · rw [if_neg hg]

/-- C9: tab-order DOM reordering is parent-scoped -- for every node of the
arena, its parent after `_reorder_dom_by_visual_position` is exactly its
parent before it; only sibling order within a shared parent can change. -/
theorem C9_parent_scoped (dom : Dom) (hasIssue : Bool)
    (entries : List RPosElem) (n : ℕ) :
    parentOf (reorder_dom_by_visual_position dom hasIssue entries) n =
      parentOf dom n := by
  unfold reorder_dom_by_visual_position
  split
  · rfl
  split
  · rfl
  exact reorder_fold_parentOf _ _ _

end CAU
